import Mathlib

/-!
Verification development for `connection.go` (package `net` of gxlb/net).

`Connection` owns one TCP socket, a send buffer `wbuf`, a receive buffer `rbuf`,
three channels (`chevent`, `chexit`, `cherr`), a wait group and one background
goroutine `send`.

Embedding:

* The heap reachable from a `*Connection` (the struct itself, the socket behind
  `c.conn`, the registry behind `c.manager`) is one record `Sys`.
* `chevent` and `cherr` are buffered channels that connection.go never closes:
  they are modelled by their buffer and their capacity (`Chan`).  `chexit` is
  unbuffered, is never sent on and is only closed: it is modelled by its
  closed flag.
* The methods of `wbuffer` are not defined in connection.go.  They are taken as
  a parameter (`WBufOps`), so every theorem below holds for every behaviour of
  the send buffer.  A drain receives the buffer and the socket and returns the
  new buffer, the bytes it put on the wire and its outcome.
* Sequential methods (`notifyErr`, `Flush`, `Write`, `WriteBatch`, `WriteParts`,
  `SetNonBlocking`, `newConnection`) are functions.  `Close` blocks on the wait
  group and `send` is a goroutine, so both are given as program counters with
  one atomic step per statement (`step`), and executions are lists of `Action`s
  (`run`).  When several cases of `send`'s `select` are ready Go chooses one of
  them at random: each ready case is a separate enabled action.
* Counters that only observe the execution (`callerDrains`, `taskDrains`,
  `removals`, `log`) do not exist in the Go code; they record how
  often `wbuf.WriteTo` was invoked and what `removeClient` reported.
-/

namespace GxlbNet

/-- A Go `error` value that is not nil, identified by a number. -/
abbrev GoError := Nat

/-- A Go `[]byte`. -/
abbrev Bytes := List Nat

/-- A buffered channel that is never closed: its buffered elements (oldest
first) and its capacity. -/
structure Chan (α : Type) where
  buf : List α
  cap : Nat
deriving DecidableEq, Repr

/-- Go's `make(chan α, cap)`. -/
def Chan.make {α : Type} (cap : Nat) : Chan α :=
  { buf := [], cap := cap }

/-- Go's `len(ch)`. -/
def Chan.len {α : Type} (ch : Chan α) : Nat :=
  ch.buf.length

/-- The statement `select { case ch <- v: default: }`: the send proceeds when
the buffer has room, otherwise the default case runs and nothing changes. -/
def Chan.trySend {α : Type} (ch : Chan α) (v : α) : Chan α :=
  if ch.buf.length < ch.cap then { ch with buf := ch.buf ++ [v] } else ch

/-- A receive case `v := <-ch` of a `select`: ready exactly when the buffer is
not empty, and then it takes the oldest element. -/
def Chan.tryRecv {α : Type} (ch : Chan α) : Option (α × Chan α) :=
  match ch.buf with
  | [] => none
  | v :: rest => some (v, { ch with buf := rest })

/-- The fields of `BufferParam` read by `newConnection`. -/
structure BufferParam where
  RecvSize : Int
  SendSize : Int
  SendMaxSize : Int
deriving DecidableEq, Repr

/-- The send buffer `wbuffer`: the fields connection.go reads or sets
(`maxsize`, `chunksize`, `coder`, `dirty`, `locked`) and the buffered messages. -/
structure wbuffer where
  maxsize : Int
  chunksize : Int
  coder : Nat
  dirty : Bool
  locked : Bool
  data : List Bytes
deriving DecidableEq, Repr

/-- The receive buffer `rbuffer`: the fields set by `newConnection`. -/
structure rbuffer where
  chunksize : Int
  coder : Nat
deriving DecidableEq, Repr

/-- The socket behind `c.conn`: whether it is closed on this side, how often
`Close` was invoked on it, whether the peer is gone, and the bytes written. -/
structure TCPConn where
  closed : Bool
  closeCalls : Nat
  peerGone : Bool
  sent : Bytes
deriving DecidableEq, Repr

/-- The socket's `Close()`: every invocation is counted; the socket is closed
afterwards (a second invocation only returns an error, which both callers in
connection.go ignore). -/
def TCPConn.Close (k : TCPConn) : TCPConn :=
  { k with closed := true, closeCalls := k.closeCalls + 1 }

/-- The methods of `wbuffer` used by connection.go.  Their bodies are not in
connection.go, so they are a parameter.  `none` is Go's `nil` error. -/
structure WBufOps where
  Push : wbuffer → Bytes → wbuffer × Option GoError
  PushBatch : wbuffer → List Bytes → wbuffer × Option GoError
  PushParts : wbuffer → List Bytes → wbuffer × Option GoError
  WriteTo : wbuffer → TCPConn → wbuffer × Bytes × Option GoError

/-- The struct `Connection` (the pointers `manager` and `conn` are resolved in
`Sys`).  `chexit = true` means the channel has been closed. -/
structure Connection where
  id : Int
  wbuf : wbuffer
  rbuf : rbuffer
  wg : Int
  chevent : Chan Unit
  chexit : Bool
  cherr : Chan GoError
  nonBlocking : Bool
  epoch : Nat
deriving DecidableEq, Repr

/-- Where the goroutine `send` stands.
`select`: blocked in the `select` at the top of the loop;
`drain`: received from `chevent`, about to call `c.wbuf.WriteTo(c.conn)`;
`exitHandler`: executed `return`, the deferred function is about to call
`removeClient`; `deferClose`: `removeClient` reported `ok`, about to call
`c.conn.Close()`; `wgDone`: about to call `c.wg.Done()`; `exited`: finished. -/
inductive SendPc where
  | select
  | drain
  | exitHandler
  | deferClose
  | wgDone
  | exited
deriving DecidableEq, Repr

/-- Where the caller of `Close()` stands.
`idle`: `Close()` has not been called; `atConnClose`: `close(c.chexit)` done,
about to call `c.conn.Close()`; `atWait`: blocked in `c.wg.Wait()`;
`returned`: `Close()` has returned; `panicked`: `close` of a closed channel. -/
inductive ClosePc where
  | idle
  | atConnClose
  | atWait
  | returned
  | panicked
deriving DecidableEq, Repr

/-- The connection together with the objects it points to and the observers. -/
structure Sys where
  c : Connection
  conn : TCPConn
  manager : List Int
  sendPc : SendPc
  closePc : ClosePc
  callerDrains : Nat
  taskDrains : Nat
  removals : List Bool
  log : List GoError
deriving DecidableEq, Repr

/-- Modelled from the spec: `connectionManager.removeClient` is not in
connection.go.  The registry maps identifiers to connections and supports an
atomic removal that reports whether the identifier was present; the registry
is modelled by the list of registered identifiers. -/
def removeClient (manager : List Int) (id : Int) : List Int × Bool :=
  (manager.filter (fun k => k != id), manager.contains id)

/-- Go's `newConnection`.  The first component is the panic message or the
system after the call; the second is the number of goroutines the call started. -/
def newConnection (id : Int) (manager : List Int) (conn : TCPConn) (param : BufferParam)
    (coder : Nat) (now : Nat) : Except String Sys × Nat :=
  if param.RecvSize ≤ 0 ∨ param.SendSize ≤ 0 then
    (Except.error "invalid buffer size", 0)
  else
    let c : Connection :=
      { id := id
        chevent := Chan.make 1
        chexit := false
        cherr := Chan.make 1
        epoch := now
        rbuf := { chunksize := param.RecvSize, coder := coder }
        wbuf := { maxsize := param.SendMaxSize, chunksize := param.SendSize, coder := coder,
                  dirty := false, locked := false, data := [] }
        wg := 0
        nonBlocking := false }
    -- c.wg.Add(1)
    let c := { c with wg := c.wg + 1 }
    -- go c.send()
    (Except.ok { c := c, conn := conn, manager := manager, sendPc := SendPc.select,
                 closePc := ClosePc.idle, callerDrains := 0, taskDrains := 0,
                 removals := [], log := [] }, 1)

/-- Go's `SetNonBlocking`. -/
def SetNonBlocking (c : Connection) (nonBlocking : Bool) : Connection :=
  { c with nonBlocking := nonBlocking }

/-- Go's `notifyErr`. -/
def notifyErr (c : Connection) (err : GoError) : Connection :=
  { c with cherr := c.cherr.trySend err }

/-- Go's `Flush`. -/
def Flush (c : Connection) : Connection :=
  if c.chevent.len > 0 then c
  else { c with chevent := c.chevent.trySend () }

/-- Go's `NeedFlushing`. -/
def NeedFlushing (c : Connection) : Bool :=
  c.wbuf.dirty && !c.wbuf.locked

/-- The call `c.wbuf.WriteTo(c.conn)` made by a caller of a write method: the
buffer is replaced, the bytes go on the wire, the call is counted. -/
def callerWriteTo (ops : WBufOps) (s : Sys) : Sys × Option GoError :=
  let r := ops.WriteTo s.c.wbuf s.conn
  ({ s with c := { s.c with wbuf := r.1 }
            conn := { s.conn with sent := s.conn.sent ++ r.2.1 }
            callerDrains := s.callerDrains + 1 }, r.2.2)

/-- Go's `Write`. -/
def Write (ops : WBufOps) (s : Sys) (data : Bytes) : Sys × Option GoError :=
  let pushed := ops.Push s.c.wbuf data
  let s1 : Sys := { s with c := { s.c with wbuf := pushed.1 } }
  match pushed.2 with
  | some err => ({ s1 with c := notifyErr s1.c err }, some err)
  | none => if s1.c.nonBlocking then (s1, none) else callerWriteTo ops s1

/-- Go's `WriteBatch`. -/
def WriteBatch (ops : WBufOps) (s : Sys) (msgList : List Bytes) : Sys × Option GoError :=
  let pushed := ops.PushBatch s.c.wbuf msgList
  let s1 : Sys := { s with c := { s.c with wbuf := pushed.1 } }
  match pushed.2 with
  | some err => ({ s1 with c := notifyErr s1.c err }, some err)
  | none => if s1.c.nonBlocking then (s1, none) else callerWriteTo ops s1

/-- Go's `WriteParts`. -/
def WriteParts (ops : WBufOps) (s : Sys) (parts : List Bytes) : Sys × Option GoError :=
  let pushed := ops.PushParts s.c.wbuf parts
  let s1 : Sys := { s with c := { s.c with wbuf := pushed.1 } }
  match pushed.2 with
  | some err => ({ s1 with c := notifyErr s1.c err }, some err)
  | none => if s1.c.nonBlocking then (s1, none) else callerWriteTo ops s1

/-- One atomic step of the system.  The first seven belong to the goroutine
`send`, the next three to the caller of `Close()`, the others are calls of
the methods by any goroutine; `managerRemove` is another owner of the registry
removing this connection's identifier. -/
inductive Action where
  | selectExit
  | selectErr
  | selectEvent
  | drain
  | deferRemove
  | deferClose
  | wgDone
  | closeChan
  | closeConn
  | closeWait
  | flush
  | notify (err : GoError)
  | write (data : Bytes)
  | writeBatch (msgList : List Bytes)
  | writeParts (parts : List Bytes)
  | setNonBlocking (nonBlocking : Bool)
  | managerRemove
deriving DecidableEq, Repr

/-- The step function: `none` when the action is not enabled in the state.

`send` (lines 67-85): at the `select`, the case `<-c.chexit` is ready when the
channel is closed, the case `err := <-c.cherr` when `cherr` holds an error (it
is logged), the case `<-c.chevent` when a flush request is pending; the first
two `return`, which runs the deferred function: `removeClient`, then
`c.conn.Close()` when it reported `ok`, then `c.wg.Done()`.  The third calls
`c.wbuf.WriteTo(c.conn)`, whose result is discarded, and loops.

`Close` (lines 50-54): `close(c.chexit)` (a panic when already closed),
`c.conn.Close()`, `c.wg.Wait()` (enabled when the counter is zero). -/
def step (ops : WBufOps) (a : Action) (s : Sys) : Option Sys :=
  match a with
  | Action.selectExit =>
      if s.sendPc = SendPc.select ∧ s.c.chexit = true then
        some { s with sendPc := SendPc.exitHandler }
      else none
  | Action.selectErr =>
      if s.sendPc = SendPc.select then
        match s.c.cherr.tryRecv with
        | some (err, ch) =>
            some { s with c := { s.c with cherr := ch }, log := s.log ++ [err],
                          sendPc := SendPc.exitHandler }
        | none => none
      else none
  | Action.selectEvent =>
      if s.sendPc = SendPc.select then
        match s.c.chevent.tryRecv with
        | some (_, ch) => some { s with c := { s.c with chevent := ch }, sendPc := SendPc.drain }
        | none => none
      else none
  | Action.drain =>
      if s.sendPc = SendPc.drain then
        let r := ops.WriteTo s.c.wbuf s.conn
        some { s with c := { s.c with wbuf := r.1 }
                      conn := { s.conn with sent := s.conn.sent ++ r.2.1 }
                      taskDrains := s.taskDrains + 1
                      sendPc := SendPc.select }
      else none
  | Action.deferRemove =>
      if s.sendPc = SendPc.exitHandler then
        let r := removeClient s.manager s.c.id
        some { s with manager := r.1, removals := s.removals ++ [r.2],
                      sendPc := if r.2 then SendPc.deferClose else SendPc.wgDone }
      else none
  | Action.deferClose =>
      if s.sendPc = SendPc.deferClose then
        some { s with conn := s.conn.Close, sendPc := SendPc.wgDone }
      else none
  | Action.wgDone =>
      if s.sendPc = SendPc.wgDone then
        some { s with c := { s.c with wg := s.c.wg - 1 }, sendPc := SendPc.exited }
      else none
  | Action.closeChan =>
      if s.closePc = ClosePc.idle then
        if s.c.chexit then some { s with closePc := ClosePc.panicked }
        else some { s with c := { s.c with chexit := true }, closePc := ClosePc.atConnClose }
      else none
  | Action.closeConn =>
      if s.closePc = ClosePc.atConnClose then
        some { s with conn := s.conn.Close, closePc := ClosePc.atWait }
      else none
  | Action.closeWait =>
      if s.closePc = ClosePc.atWait ∧ s.c.wg = 0 then
        some { s with closePc := ClosePc.returned }
      else none
  | Action.flush => some { s with c := Flush s.c }
  | Action.notify err => some { s with c := notifyErr s.c err }
  | Action.write data => some (Write ops s data).1
  | Action.writeBatch msgList => some (WriteBatch ops s msgList).1
  | Action.writeParts parts => some (WriteParts ops s parts).1
  | Action.setNonBlocking b => some { s with c := SetNonBlocking s.c b }
  | Action.managerRemove => some { s with manager := (removeClient s.manager s.c.id).1 }

/-- An execution: the actions are taken in order; `none` when one of them is
not enabled where it is taken. -/
def run (ops : WBufOps) : List Action → Sys → Option Sys
  | [], s => some s
  | a :: rest, s => (step ops a s).bind (run ops rest)

/-- The states of executions that start with a successful `newConnection`. -/
def Reachable (ops : WBufOps) (s : Sys) : Prop :=
  ∃ (id : Int) (manager : List Int) (conn : TCPConn) (param : BufferParam) (coder now : Nat)
    (s0 : Sys) (acts : List Action),
    (newConnection id manager conn param coder now).1 = Except.ok s0 ∧ run ops acts s0 = some s

/-- Modelled from the spec: a send buffer for concrete executions (the methods
of `wbuffer` are not in connection.go).  It owns an optional maximum size as
backpressure (`maxsize`, 0 = unbounded): a push that would make the buffered
bytes exceed it is rejected with error 1.  A drain writes all buffered bytes
to the socket, and fails with error 32 when the socket is closed or the peer
is gone. -/
def sampleOps : WBufOps :=
  let size : wbuffer → Nat := fun w => (w.data.map List.length).sum
  let pushAll : wbuffer → List Bytes → wbuffer × Option GoError := fun w msgs =>
    if 0 < w.maxsize ∧ w.maxsize < ((size w + (msgs.map List.length).sum : Nat) : Int) then
      (w, some 1)
    else ({ w with data := w.data ++ msgs, dirty := true }, none)
  { Push := fun w data => pushAll w [data]
    PushBatch := pushAll
    PushParts := fun w parts => pushAll w [parts.flatten]
    WriteTo := fun w k =>
      if k.closed || k.peerGone then (w, [], some 32)
      else ({ w with data := [], dirty := false }, w.data.flatten, none) }

/-- The execution of `acts` on the system a call of `newConnection` returned;
`none` when that call panicked. -/
def runFrom (ops : WBufOps) (r : Except String Sys × Nat) (acts : List Action) : Option Sys :=
  match r.1 with
  | Except.ok s => run ops acts s
  | Except.error _ => none

/-- What a write method called in state `s` must have done, as a pair of the
state after it and its result, when the push returned the error `e`: it
returns `e`, invokes no drain, leaves the socket alone and offers `e` to
`cherr`. -/
def RejectedOutcome (s : Sys) (e : GoError) (r : Sys × Option GoError) : Prop :=
  r.2 = some e ∧
  r.1.callerDrains = s.callerDrains ∧ r.1.taskDrains = s.taskDrains ∧
  r.1.conn = s.conn ∧
  r.1.c.cherr = s.c.cherr.trySend e ∧
  (s.c.cherr.buf = [] → 0 < s.c.cherr.cap → r.1.c.cherr.buf = [e]) ∧
  (s.c.cherr.cap ≤ s.c.cherr.buf.length → r.1.c.cherr = s.c.cherr)

/-- What a write method called in state `s` must have done when the push
succeeded and left the send buffer `w`. -/
def PushedOutcome (ops : WBufOps) (s : Sys) (w : wbuffer) (r : Sys × Option GoError) : Prop :=
  (s.c.nonBlocking = false →
    r.1.callerDrains = s.callerDrains + 1 ∧ r.1.taskDrains = s.taskDrains ∧
    r.2 = (ops.WriteTo w s.conn).2.2 ∧
    r.1.c.wbuf = (ops.WriteTo w s.conn).1 ∧
    r.1.conn.sent = s.conn.sent ++ (ops.WriteTo w s.conn).2.1) ∧
  (s.c.nonBlocking = true →
    r.2 = none ∧
    r.1.callerDrains = s.callerDrains ∧ r.1.taskDrains = s.taskDrains ∧
    r.1.conn = s.conn ∧ r.1.c.wbuf = w ∧
    r.1.c.chevent = s.c.chevent ∧ r.1.c.cherr = s.c.cherr)

/-- What a blocking write method called in state `s` does when the push
succeeded, left the send buffer `w`, and the drain returned the error `e`:
it returns `e` and leaves `cherr` as it was. -/
def DrainErrorOutcome (s : Sys) (e : GoError) (r : Sys × Option GoError) : Prop :=
  r.2 = some e ∧ r.1.c.cherr = s.c.cherr ∧ r.1.sendPc = s.sendPc

/-- A connected socket on which nothing has happened yet. -/
def openSock : TCPConn :=
  { closed := false, closeCalls := 0, peerGone := false, sent := [] }

/-- A connected socket whose peer is gone: writes to it fail. -/
def deadPeerSock : TCPConn :=
  { closed := false, closeCalls := 0, peerGone := true, sent := [] }

/-- The system right after `newConnection 7 [3, 7] conn param 0 0` for positive
chunk sizes (see `newSys_eq`): connection 7 is registered next to connection 3. -/
def newSys (conn : TCPConn) (param : BufferParam) : Sys :=
  { c := { id := 7
           wbuf := { maxsize := param.SendMaxSize, chunksize := param.SendSize, coder := 0,
                     dirty := false, locked := false, data := [] }
           rbuf := { chunksize := param.RecvSize, coder := 0 }
           wg := 1
           chevent := { buf := [], cap := 1 }
           chexit := false
           cherr := { buf := [], cap := 1 }
           nonBlocking := false
           epoch := 0 }
    conn := conn
    manager := [3, 7]
    sendPc := SendPc.select
    closePc := ClosePc.idle
    callerDrains := 0
    taskDrains := 0
    removals := []
    log := [] }

/-- The actions of `Close()` on a connection whose goroutine `send` is at its
`select`, followed to the end: `close(c.chexit)`, `c.conn.Close()`, then `send`
takes the shutdown case, removes the connection from the registry, closes the
socket, calls `c.wg.Done()`, and `c.wg.Wait()` returns. -/
def closeTrace : List Action :=
  [Action.closeChan, Action.closeConn, Action.selectExit, Action.deferRemove,
   Action.deferClose, Action.wgDone, Action.closeWait]

/-- The state `closeTrace` leads to from `newSys openSock ⟨4096, 4096, 0⟩`
(see `closeTrace_runs`). -/
def closedSys : Sys :=
  { c := { id := 7
           wbuf := { maxsize := 0, chunksize := 4096, coder := 0,
                     dirty := false, locked := false, data := [] }
           rbuf := { chunksize := 4096, coder := 0 }
           wg := 0
           chevent := { buf := [], cap := 1 }
           chexit := true
           cherr := { buf := [], cap := 1 }
           nonBlocking := false
           epoch := 0 }
    conn := { closed := true, closeCalls := 2, peerGone := false, sent := [] }
    manager := [3]
    sendPc := SendPc.exited
    closePc := ClosePc.returned
    callerDrains := 0
    taskDrains := 0
    removals := [true]
    log := [] }

/-- The teardown that follows when a write method called in state `s` has
offered the error `e` to the empty slot and left the state `s1`: the slot
holds `e`; at the `select` of `send` neither the shutdown case nor the flush
case is ready; `send` receives `e`, logs it, returns, removes the connection
from the registry with `ok`, closes the socket and exits, while `Close()`
stands where it stood. -/
def ErrorTeardown (ops : WBufOps) (s s1 : Sys) (e : GoError) : Prop :=
  s1.c.cherr.buf = [e] ∧
  step ops Action.selectExit s1 = none ∧ step ops Action.selectEvent s1 = none ∧
  ∃ t, run ops [Action.selectErr, Action.deferRemove, Action.deferClose, Action.wgDone] s1
      = some t ∧
    t.sendPc = SendPc.exited ∧ t.log = s.log ++ [e] ∧ s.c.id ∉ t.manager ∧
    t.removals = s.removals ++ [true] ∧
    t.conn.closed = true ∧ t.conn.closeCalls = s.conn.closeCalls + 1 ∧
    t.closePc = s.closePc

/-- The state of the end-to-end scenario after `Close()` has closed `chexit`,
with no flush request pending. -/
def shutSys : Sys :=
  { newSys openSock ⟨4096, 4096, 0⟩ with
    c := { (newSys openSock ⟨4096, 4096, 0⟩).c with chexit := true }
    closePc := ClosePc.atConnClose }

/-- The state an execution ends in, or the start state when an action of the
execution is not enabled. -/
def runOr (ops : WBufOps) (acts : List Action) (s : Sys) : Sys :=
  (run ops acts s).getD s

/-- The number of registry removals along an execution that reported `ok`
(the identifier was present), counting the removal made by the deferred
function of `send` and the removals made by another owner of the registry. -/
def removalWins (ops : WBufOps) : List Action → Sys → Nat
  | [], _ => 0
  | a :: rest, s =>
      match step ops a s with
      | none => 0
      | some u =>
          (match a with
           | Action.deferRemove => if (removeClient s.manager s.c.id).2 then 1 else 0
           | Action.managerRemove => if (removeClient s.manager s.c.id).2 then 1 else 0
           | _ => 0) + removalWins ops rest u

/-- The execution `closeTrace` with a removal by another owner of the registry
after `Close()` has closed the socket: the deferred function of `send` loses
the removal and skips its `c.conn.Close()`. -/
def lostTrace : List Action :=
  [Action.closeChan, Action.closeConn, Action.managerRemove, Action.selectExit,
   Action.deferRemove, Action.wgDone, Action.closeWait]

/-- Some continuation of the execution brings `Close()` to its return. -/
def CanReturn (ops : WBufOps) (s : Sys) : Prop :=
  ∃ acts t, run ops acts s = some t ∧ t.closePc = ClosePc.returned

/-! ## Invariants of the executions -/

/-- The facts that hold in every state of an execution that starts with a
socket on which `Close` had been invoked `k` times. -/
structure Inv (k : Nat) (s : Sys) : Prop where
  capEvent : s.c.chevent.cap = 1
  capErr : s.c.cherr.cap = 1
  lenEvent : s.c.chevent.buf.length ≤ 1
  lenErr : s.c.cherr.buf.length ≤ 1
  wg : s.c.wg = if s.sendPc = SendPc.exited then 0 else 1
  removed : s.sendPc = SendPc.deferClose ∨ s.sendPc = SendPc.wgDone ∨ s.sendPc = SendPc.exited →
    s.c.id ∉ s.manager
  removalsBefore : s.sendPc = SendPc.select ∨ s.sendPc = SendPc.drain ∨
    s.sendPc = SendPc.exitHandler → s.removals = []
  removalsWon : s.sendPc = SendPc.deferClose → s.removals = [true]
  removalsAfter : s.sendPc = SendPc.wgDone ∨ s.sendPc = SendPc.exited → s.removals.length = 1
  closes : s.conn.closeCalls = k
    + (if s.closePc = ClosePc.atWait ∨ s.closePc = ClosePc.returned then 1 else 0)
    + (if (s.sendPc = SendPc.wgDone ∨ s.sendPc = SendPc.exited) ∧ s.removals = [true]
        then 1 else 0)
  joined : s.closePc = ClosePc.returned → s.sendPc = SendPc.exited
  exitFlag : s.c.chexit = true ↔ s.closePc ≠ ClosePc.idle
  noPanic : s.closePc ≠ ClosePc.panicked

/-- The connection is still in the registry until the deferred function of
`send` has removed it, and that removal reported `ok`. -/
structure Owned (s : Sys) : Prop where
  present : s.sendPc = SendPc.select ∨ s.sendPc = SendPc.drain ∨
    s.sendPc = SendPc.exitHandler → s.c.id ∈ s.manager
  won : s.sendPc = SendPc.deferClose ∨ s.sendPc = SendPc.wgDone ∨
    s.sendPc = SendPc.exited → s.removals = [true]

/-- The number of drains `send` has done plus those it still can do without a
new flush request: the pending requests and the request being served. -/
def drainBudget (s : Sys) : Nat :=
  s.taskDrains + s.c.chevent.len + (if s.sendPc = SendPc.drain then 1 else 0)

/-- What one step can do to the channels and to the drains of `send`. -/
structure StepFacts (a : Action) (s t : Sys) : Prop where
  chevent : a ≠ Action.selectEvent → a ≠ Action.flush → t.c.chevent = s.c.chevent
  cherr : a ≠ Action.selectErr →
    t.c.cherr = s.c.cherr ∨ ∃ e, t.c.cherr = s.c.cherr.trySend e
  drains : s.taskDrains ≤ t.taskDrains
  budget : a ≠ Action.flush → drainBudget t ≤ drainBudget s
  chexit : s.c.chexit = true → t.c.chexit = true
  owned : a ≠ Action.managerRemove → Owned s → s.removals = [] ∨ s.sendPc ≠ SendPc.exitHandler →
    Owned t

/-- What a call of a write method may change: the send buffer, the bytes on
the wire, the count of the caller's drains, and `cherr` by one offer. -/
structure CallerFrame (s t : Sys) : Prop where
  sendPc : t.sendPc = s.sendPc
  closePc : t.closePc = s.closePc
  manager : t.manager = s.manager
  removals : t.removals = s.removals
  taskDrains : t.taskDrains = s.taskDrains
  log : t.log = s.log
  closeCalls : t.conn.closeCalls = s.conn.closeCalls
  closed : t.conn.closed = s.conn.closed
  id : t.c.id = s.c.id
  wg : t.c.wg = s.c.wg
  chexit : t.c.chexit = s.c.chexit
  chevent : t.c.chevent = s.c.chevent
  nonBlocking : t.c.nonBlocking = s.c.nonBlocking
  cherr : t.c.cherr = s.c.cherr ∨ ∃ e, t.c.cherr = s.c.cherr.trySend e

theorem trySend_cap {α : Type} (ch : Chan α) (v : α) : (ch.trySend v).cap = ch.cap := by
  unfold Chan.trySend; split <;> rfl

theorem trySend_len_le {α : Type} (ch : Chan α) (v : α) (h : ch.buf.length ≤ ch.cap) :
    (ch.trySend v).buf.length ≤ ch.cap := by
  unfold Chan.trySend; split
  · simp; omega
  · exact h

theorem tryRecv_some {α : Type} (ch : Chan α) (v : α) (ch1 : Chan α)
    (h : ch.tryRecv = some (v, ch1)) : ch.buf = v :: ch1.buf ∧ ch1.cap = ch.cap := by
  unfold Chan.tryRecv at h
  split at h
  · simp at h
  · rename_i w rest hb
    simp at h
    obtain ⟨h1, h2⟩ := h
    subst h1; subst h2
    exact ⟨hb, rfl⟩

theorem afterPush_frame (ops : WBufOps) (s : Sys) (pushed : wbuffer × Option GoError) :
    CallerFrame s
      (match pushed.2 with
       | some err =>
          (({ ({ s with c := { s.c with wbuf := pushed.1 } } : Sys) with
              c := notifyErr ({ s with c := { s.c with wbuf := pushed.1 } } : Sys).c err } : Sys),
            some err)
       | none =>
          if ({ s with c := { s.c with wbuf := pushed.1 } } : Sys).c.nonBlocking then
            (({ s with c := { s.c with wbuf := pushed.1 } } : Sys), none)
          else callerWriteTo ops ({ s with c := { s.c with wbuf := pushed.1 } } : Sys)).1 := by
  rcases pushed with ⟨w, _ | e⟩
  · by_cases hb : s.c.nonBlocking = true
    · simp [hb]
      constructor <;> simp [hb]
    · simp [hb, callerWriteTo]
      constructor <;> simp [hb]
  · simp [notifyErr]
    constructor <;> simp

theorem Write_frame (ops : WBufOps) (s : Sys) (data : Bytes) :
    CallerFrame s (Write ops s data).1 :=
  afterPush_frame ops s (ops.Push s.c.wbuf data)

theorem WriteBatch_frame (ops : WBufOps) (s : Sys) (msgList : List Bytes) :
    CallerFrame s (WriteBatch ops s msgList).1 :=
  afterPush_frame ops s (ops.PushBatch s.c.wbuf msgList)

theorem WriteParts_frame (ops : WBufOps) (s : Sys) (parts : List Bytes) :
    CallerFrame s (WriteParts ops s parts).1 :=
  afterPush_frame ops s (ops.PushParts s.c.wbuf parts)

theorem frame_inv {k : Nat} {s t : Sys} (f : CallerFrame s t) (hi : Inv k s) : Inv k t := by
  obtain ⟨f1, f2, f3, f4, f5, f6, f7, f8, f9, f10, f11, f12, f13, f14⟩ := f
  obtain ⟨h1, h2, h3, h4, h5, h6, h7, h8, h9, h10, h11, h12, h13⟩ := hi
  have hcap : t.c.cherr.cap = 1 := by
    rcases f14 with h | ⟨e, h⟩
    · rw [h]; exact h2
    · rw [h, trySend_cap]; exact h2
  have hlen : t.c.cherr.buf.length ≤ 1 := by
    rcases f14 with h | ⟨e, h⟩
    · rw [h]; exact h4
    · rw [h]
      have := trySend_len_le s.c.cherr e (by omega)
      omega
  constructor
  · rw [f12]; exact h1
  · exact hcap
  · rw [f12]; exact h3
  · exact hlen
  · rw [f10, f1]; exact h5
  · rw [f1, f9, f3]; exact h6
  · rw [f1, f4]; exact h7
  · rw [f1, f4]; exact h8
  · rw [f1, f4]; exact h9
  · rw [f7, f2, f1, f4]; exact h10
  · rw [f2, f1]; exact h11
  · rw [f11, f2]; exact h12
  · rw [f2]; exact h13

theorem removeClient_not_mem (manager : List Int) (id : Int) :
    id ∉ (removeClient manager id).1 := by
  simp [removeClient]

theorem removeClient_subset (manager : List Int) (id k : Int)
    (h : k ∉ manager) : k ∉ (removeClient manager id).1 := by
  simp [removeClient]
  intro hk
  exact absurd hk h

theorem step_inv {k : Nat} (ops : WBufOps) (a : Action) (s t : Sys)
    (h : step ops a s = some t) (hi : Inv k s) : Inv k t := by
  cases a with
  | write d =>
      simp only [step, Option.some.injEq] at h
      subst h
      exact frame_inv (Write_frame ops s d) hi
  | writeBatch d =>
      simp only [step, Option.some.injEq] at h
      subst h
      exact frame_inv (WriteBatch_frame ops s d) hi
  | writeParts d =>
      simp only [step, Option.some.injEq] at h
      subst h
      exact frame_inv (WriteParts_frame ops s d) hi
  | selectExit =>
      simp only [step] at h
      split at h
      · rename_i hc
        simp only [Option.some.injEq] at h
        subst h
        obtain ⟨h1, h2, h3, h4, h5, h6, h7, h8, h9, h10, h11, h12, h13⟩ := hi
        constructor <;> simp_all
      · simp at h
  | selectErr =>
      simp only [step] at h
      split at h
      · rename_i hc
        split at h
        · rename_i e ch hr
          simp only [Option.some.injEq] at h
          subst h
          obtain ⟨hb, hcap⟩ := tryRecv_some _ _ _ hr
          obtain ⟨h1, h2, h3, h4, h5, h6, h7, h8, h9, h10, h11, h12, h13⟩ := hi
          constructor <;> simp_all
        · simp at h
      · simp at h
  | selectEvent =>
      simp only [step] at h
      split at h
      · rename_i hc
        split at h
        · rename_i e ch hr
          simp only [Option.some.injEq] at h
          subst h
          obtain ⟨hb, hcap⟩ := tryRecv_some _ _ _ hr
          obtain ⟨h1, h2, h3, h4, h5, h6, h7, h8, h9, h10, h11, h12, h13⟩ := hi
          constructor <;> simp_all
        · simp at h
      · simp at h
  | drain =>
      simp only [step] at h
      split at h
      · rename_i hc
        simp only [Option.some.injEq] at h
        subst h
        obtain ⟨h1, h2, h3, h4, h5, h6, h7, h8, h9, h10, h11, h12, h13⟩ := hi
        constructor <;> simp_all
      · simp at h
  | deferRemove =>
      simp only [step] at h
      split at h
      · rename_i hc
        simp only [Option.some.injEq] at h
        subst h
        obtain ⟨h1, h2, h3, h4, h5, h6, h7, h8, h9, h10, h11, h12, h13⟩ := hi
        have hn := removeClient_not_mem s.manager s.c.id
        cases hr : (removeClient s.manager s.c.id).2 <;> constructor <;> simp_all
      · simp at h
  | deferClose =>
      simp only [step] at h
      split at h
      · rename_i hc
        simp only [Option.some.injEq] at h
        subst h
        obtain ⟨h1, h2, h3, h4, h5, h6, h7, h8, h9, h10, h11, h12, h13⟩ := hi
        constructor <;> simp_all [TCPConn.Close]
      · simp at h
  | wgDone =>
      simp only [step] at h
      split at h
      · rename_i hc
        simp only [Option.some.injEq] at h
        subst h
        obtain ⟨h1, h2, h3, h4, h5, h6, h7, h8, h9, h10, h11, h12, h13⟩ := hi
        constructor <;> simp_all
      · simp at h
  | closeChan =>
      simp only [step] at h
      split at h
      · rename_i hc
        split at h
        · rename_i hx
          obtain ⟨h1, h2, h3, h4, h5, h6, h7, h8, h9, h10, h11, h12, h13⟩ := hi
          exact absurd hc (h12.mp hx)
        · rename_i hx
          simp only [Option.some.injEq] at h
          subst h
          obtain ⟨h1, h2, h3, h4, h5, h6, h7, h8, h9, h10, h11, h12, h13⟩ := hi
          constructor <;> simp_all
      · simp at h
  | closeConn =>
      simp only [step] at h
      split at h
      · rename_i hc
        simp only [Option.some.injEq] at h
        subst h
        obtain ⟨h1, h2, h3, h4, h5, h6, h7, h8, h9, h10, h11, h12, h13⟩ := hi
        constructor <;> simp_all [TCPConn.Close]
        omega
      · simp at h
  | closeWait =>
      simp only [step] at h
      split at h
      · rename_i hc
        simp only [Option.some.injEq] at h
        subst h
        obtain ⟨h1, h2, h3, h4, h5, h6, h7, h8, h9, h10, h11, h12, h13⟩ := hi
        constructor <;> simp_all
      · simp at h
  | flush =>
      simp only [step, Option.some.injEq] at h
      subst h
      obtain ⟨h1, h2, h3, h4, h5, h6, h7, h8, h9, h10, h11, h12, h13⟩ := hi
      have hc := trySend_cap s.c.chevent ()
      have hl := trySend_len_le s.c.chevent () (by omega)
      constructor <;> (unfold Flush; split) <;> simp_all
  | notify e =>
      simp only [step, Option.some.injEq] at h
      subst h
      obtain ⟨h1, h2, h3, h4, h5, h6, h7, h8, h9, h10, h11, h12, h13⟩ := hi
      have hc := trySend_cap s.c.cherr e
      have hl := trySend_len_le s.c.cherr e (by omega)
      constructor <;> simp_all [notifyErr]
  | setNonBlocking b =>
      simp only [step, Option.some.injEq] at h
      subst h
      obtain ⟨h1, h2, h3, h4, h5, h6, h7, h8, h9, h10, h11, h12, h13⟩ := hi
      exact ⟨h1, h2, h3, h4, h5, h6, h7, h8, h9, h10, h11, h12, h13⟩
  | managerRemove =>
      simp only [step, Option.some.injEq] at h
      subst h
      obtain ⟨h1, h2, h3, h4, h5, h6, h7, h8, h9, h10, h11, h12, h13⟩ := hi
      exact ⟨h1, h2, h3, h4, h5, fun hp => removeClient_subset _ _ _ (h6 hp), h7, h8, h9, h10,
        h11, h12, h13⟩

theorem run_inv {k : Nat} (ops : WBufOps) :
    ∀ (acts : List Action) (s t : Sys), run ops acts s = some t → Inv k s → Inv k t := by
  intro acts
  induction acts with
  | nil =>
      intro s t h hi
      simp only [run, Option.some.injEq] at h
      subst h
      exact hi
  | cons a rest ih =>
      intro s t h hi
      simp only [run] at h
      cases hs : step ops a s with
      | none => rw [hs] at h; simp at h
      | some u =>
          rw [hs] at h
          simp only [Option.some_bind] at h
          exact ih u t h (step_inv ops a s u hs hi)

theorem newConnection_inv (id : Int) (manager : List Int) (conn : TCPConn) (param : BufferParam)
    (coder now : Nat) (s0 : Sys)
    (h : (newConnection id manager conn param coder now).1 = Except.ok s0) :
    Inv conn.closeCalls s0 := by
  unfold newConnection at h
  split at h
  · simp at h
  · simp only [Except.ok.injEq] at h
    subst h
    constructor <;> simp [Chan.make]

theorem reachable_inv (ops : WBufOps) (s : Sys) (h : Reachable ops s) : ∃ k, Inv k s := by
  obtain ⟨id, manager, conn, param, coder, now, s0, acts, h0, hr⟩ := h
  exact ⟨conn.closeCalls, run_inv ops acts s0 s hr (newConnection_inv _ _ _ _ _ _ _ h0)⟩

/-! ## Construction -/

/-- C9: `newConnection` panics with "invalid buffer size" and starts no
goroutine exactly when `RecvSize <= 0` or `SendSize <= 0`; when both sizes are
positive (any `SendMaxSize`) it returns a connection whose receive buffer has
chunksize `RecvSize`, whose send buffer has chunksize `SendSize` and maxsize
`SendMaxSize`, whose `chevent` and `cherr` are empty with capacity 1, whose
`chexit` is open, and it has started exactly one goroutine, `send`, which
stands at its `select`. -/
theorem newConnection_panics_iff_bad_size (id : Int) (manager : List Int) (conn : TCPConn)
    (param : BufferParam) (coder now : Nat) :
    (((newConnection id manager conn param coder now).1 = Except.error "invalid buffer size" ∧
        (newConnection id manager conn param coder now).2 = 0) ↔
      (param.RecvSize ≤ 0 ∨ param.SendSize ≤ 0)) ∧
    (0 < param.RecvSize → 0 < param.SendSize →
      ∃ s, newConnection id manager conn param coder now = (Except.ok s, 1) ∧
        s.c.id = id ∧ s.conn = conn ∧ s.manager = manager ∧
        s.c.rbuf.chunksize = param.RecvSize ∧
        s.c.wbuf.chunksize = param.SendSize ∧ s.c.wbuf.maxsize = param.SendMaxSize ∧
        s.c.wbuf.data = [] ∧
        s.c.chevent.buf = [] ∧ s.c.chevent.cap = 1 ∧
        s.c.cherr.buf = [] ∧ s.c.cherr.cap = 1 ∧
        s.c.chexit = false ∧ s.c.wg = 1 ∧
        s.sendPc = SendPc.select ∧ s.closePc = ClosePc.idle ∧
        s.callerDrains = 0 ∧ s.taskDrains = 0) := by
  constructor
  · constructor
    · intro h
      by_contra hn
      have h1 := h.1
      simp [newConnection, hn] at h1
    · intro h
      simp [newConnection, h]
  · intro hr hs
    have hn : ¬ (param.RecvSize ≤ 0 ∨ param.SendSize ≤ 0) := by omega
    simp only [newConnection, hn, if_false]
    refine ⟨_, rfl, ?_⟩
    simp [Chan.make]

/-- C9 at the configuration of the end-to-end scenario (4096, 4096, 0). -/
theorem newConnection_panics_iff_bad_size_witness :
    ∃ s, newConnection 7 [3, 7] ⟨false, 0, false, []⟩ ⟨4096, 4096, 0⟩ 0 0 = (Except.ok s, 1) ∧
      s.c.id = 7 ∧ s.conn = ⟨false, 0, false, []⟩ ∧ s.manager = [3, 7] ∧
      s.c.rbuf.chunksize = 4096 ∧
      s.c.wbuf.chunksize = 4096 ∧ s.c.wbuf.maxsize = 0 ∧
      s.c.wbuf.data = [] ∧
      s.c.chevent.buf = [] ∧ s.c.chevent.cap = 1 ∧
      s.c.cherr.buf = [] ∧ s.c.cherr.cap = 1 ∧
      s.c.chexit = false ∧ s.c.wg = 1 ∧
      s.sendPc = SendPc.select ∧ s.closePc = ClosePc.idle ∧
      s.callerDrains = 0 ∧ s.taskDrains = 0 :=
  (newConnection_panics_iff_bad_size 7 [3, 7] ⟨false, 0, false, []⟩ ⟨4096, 4096, 0⟩ 0 0).2
    (by decide) (by decide)

/-! ## The write path -/

theorem rejected_outcome (ops : WBufOps) (s : Sys) (pushed : wbuffer × Option GoError)
    (e : GoError) (h : pushed.2 = some e) :
    RejectedOutcome s e
      (match pushed.2 with
       | some err =>
          (({ ({ s with c := { s.c with wbuf := pushed.1 } } : Sys) with
              c := notifyErr ({ s with c := { s.c with wbuf := pushed.1 } } : Sys).c err } : Sys),
            some err)
       | none =>
          if ({ s with c := { s.c with wbuf := pushed.1 } } : Sys).c.nonBlocking then
            (({ s with c := { s.c with wbuf := pushed.1 } } : Sys), none)
          else callerWriteTo ops ({ s with c := { s.c with wbuf := pushed.1 } } : Sys)) := by
  rw [h]
  refine ⟨rfl, rfl, rfl, rfl, rfl, ?_, ?_⟩
  · intro hb hc
    simp [notifyErr, Chan.trySend, hb, hc]
  · intro hc
    have : ¬ s.c.cherr.buf.length < s.c.cherr.cap := by omega
    simp [notifyErr, Chan.trySend, this]

/-- C1: for each of `Write`, `WriteBatch` and `WriteParts`, in every state and
for every payload: when the push returns an error the method returns exactly
that error, invokes no drain (the drain counters and the socket are
unchanged) and offers the error to `cherr`, where it is stored when the slot
was empty and dropped when the slot was full. -/
theorem push_error_is_returned_and_offered (ops : WBufOps) (s : Sys) (e : GoError) :
    (∀ data, (ops.Push s.c.wbuf data).2 = some e →
      RejectedOutcome s e (Write ops s data)) ∧
    (∀ msgList, (ops.PushBatch s.c.wbuf msgList).2 = some e →
      RejectedOutcome s e (WriteBatch ops s msgList)) ∧
    (∀ parts, (ops.PushParts s.c.wbuf parts).2 = some e →
      RejectedOutcome s e (WriteParts ops s parts)) :=
  ⟨fun data h => rejected_outcome ops s (ops.Push s.c.wbuf data) e h,
   fun msgList h => rejected_outcome ops s (ops.PushBatch s.c.wbuf msgList) e h,
   fun parts h => rejected_outcome ops s (ops.PushParts s.c.wbuf parts) e h⟩

/-- The sample system `newSys` is what `newConnection` returns. -/
theorem newSys_eq (conn : TCPConn) (param : BufferParam)
    (h1 : 0 < param.RecvSize) (h2 : 0 < param.SendSize) :
    newConnection 7 [3, 7] conn param 0 0 = (Except.ok (newSys conn param), 1) := by
  have hn : ¬ (param.RecvSize ≤ 0 ∨ param.SendSize ≤ 0) := by omega
  simp [newConnection, hn, newSys, Chan.make]

theorem newSys_reachable (ops : WBufOps) (conn : TCPConn) (param : BufferParam)
    (h1 : 0 < param.RecvSize) (h2 : 0 < param.SendSize) (acts : List Action) (s : Sys)
    (h : run ops acts (newSys conn param) = some s) : Reachable ops s :=
  ⟨7, [3, 7], conn, param, 0, 0, newSys conn param, acts, by rw [newSys_eq conn param h1 h2], h⟩

/-- C1 at a connection with `SendMaxSize = 2` and a payload of three bytes. -/
theorem push_error_is_returned_and_offered_witness :
    (sampleOps.Push (newSys openSock ⟨4096, 4096, 2⟩).c.wbuf [1, 2, 3]).2 = some 1 ∧
    RejectedOutcome (newSys openSock ⟨4096, 4096, 2⟩) 1
      (Write sampleOps (newSys openSock ⟨4096, 4096, 2⟩) [1, 2, 3]) :=
  ⟨by decide,
   (push_error_is_returned_and_offered sampleOps (newSys openSock ⟨4096, 4096, 2⟩) 1).1
     [1, 2, 3] (by decide)⟩

theorem pushed_outcome (ops : WBufOps) (s : Sys) (pushed : wbuffer × Option GoError)
    (h : pushed.2 = none) :
    PushedOutcome ops s pushed.1
      (match pushed.2 with
       | some err =>
          (({ ({ s with c := { s.c with wbuf := pushed.1 } } : Sys) with
              c := notifyErr ({ s with c := { s.c with wbuf := pushed.1 } } : Sys).c err } : Sys),
            some err)
       | none =>
          if ({ s with c := { s.c with wbuf := pushed.1 } } : Sys).c.nonBlocking then
            (({ s with c := { s.c with wbuf := pushed.1 } } : Sys), none)
          else callerWriteTo ops ({ s with c := { s.c with wbuf := pushed.1 } } : Sys)) := by
  rw [h]
  constructor
  · intro hb
    simp [hb, callerWriteTo]
  · intro hb
    simp [hb]

/-- C2: for each of `Write`, `WriteBatch` and `WriteParts`, in every state and
for every payload whose push succeeds: when `nonBlocking` is false the method
invokes the drain `wbuf.WriteTo` on the socket exactly once (on the buffer the
push left) and returns exactly the drain's outcome; when `nonBlocking` is true
it returns nil, invokes no drain, and leaves the socket, `chevent` and `cherr`
unchanged. -/
theorem push_ok_drains_once_or_returns_nil (ops : WBufOps) (s : Sys) :
    (∀ data, (ops.Push s.c.wbuf data).2 = none →
      PushedOutcome ops s (ops.Push s.c.wbuf data).1 (Write ops s data)) ∧
    (∀ msgList, (ops.PushBatch s.c.wbuf msgList).2 = none →
      PushedOutcome ops s (ops.PushBatch s.c.wbuf msgList).1 (WriteBatch ops s msgList)) ∧
    (∀ parts, (ops.PushParts s.c.wbuf parts).2 = none →
      PushedOutcome ops s (ops.PushParts s.c.wbuf parts).1 (WriteParts ops s parts)) :=
  ⟨fun data h => pushed_outcome ops s (ops.Push s.c.wbuf data) h,
   fun msgList h => pushed_outcome ops s (ops.PushBatch s.c.wbuf msgList) h,
   fun parts h => pushed_outcome ops s (ops.PushParts s.c.wbuf parts) h⟩

/-- C2 at the end-to-end scenario: a blocking `Write` of "ping". -/
theorem push_ok_drains_once_or_returns_nil_witness :
    (sampleOps.Push (newSys openSock ⟨4096, 4096, 0⟩).c.wbuf [112, 105, 110, 103]).2 = none ∧
    PushedOutcome sampleOps (newSys openSock ⟨4096, 4096, 0⟩)
      (sampleOps.Push (newSys openSock ⟨4096, 4096, 0⟩).c.wbuf [112, 105, 110, 103]).1
      (Write sampleOps (newSys openSock ⟨4096, 4096, 0⟩) [112, 105, 110, 103]) :=
  ⟨by decide,
   (push_ok_drains_once_or_returns_nil sampleOps (newSys openSock ⟨4096, 4096, 0⟩)).1
     [112, 105, 110, 103] (by decide)⟩

theorem drain_error_outcome (ops : WBufOps) (s : Sys) (pushed : wbuffer × Option GoError)
    (e : GoError) (h : pushed.2 = none) (hb : s.c.nonBlocking = false)
    (hd : (ops.WriteTo pushed.1 s.conn).2.2 = some e) :
    DrainErrorOutcome s e
      (match pushed.2 with
       | some err =>
          (({ ({ s with c := { s.c with wbuf := pushed.1 } } : Sys) with
              c := notifyErr ({ s with c := { s.c with wbuf := pushed.1 } } : Sys).c err } : Sys),
            some err)
       | none =>
          if ({ s with c := { s.c with wbuf := pushed.1 } } : Sys).c.nonBlocking then
            (({ s with c := { s.c with wbuf := pushed.1 } } : Sys), none)
          else callerWriteTo ops ({ s with c := { s.c with wbuf := pushed.1 } } : Sys)) := by
  rw [h]
  simp [hb, callerWriteTo, DrainErrorOutcome, hd]

/-- C5 as the code has it: an error returned by a drain is not recorded in
`cherr`.  A blocking `Write`, `WriteBatch` or `WriteParts` whose push succeeded
and whose drain returned the error `e` returns `e` to its caller and leaves
`cherr` as it was; the drain run by the goroutine `send` for a flush request
leaves `cherr` and the log as they were, whatever its outcome, and `send`
goes back to its `select`. -/
theorem drain_error_is_not_offered (ops : WBufOps) (s : Sys) (e : GoError) :
    (∀ data, (ops.Push s.c.wbuf data).2 = none → s.c.nonBlocking = false →
      (ops.WriteTo (ops.Push s.c.wbuf data).1 s.conn).2.2 = some e →
      DrainErrorOutcome s e (Write ops s data)) ∧
    (∀ msgList, (ops.PushBatch s.c.wbuf msgList).2 = none → s.c.nonBlocking = false →
      (ops.WriteTo (ops.PushBatch s.c.wbuf msgList).1 s.conn).2.2 = some e →
      DrainErrorOutcome s e (WriteBatch ops s msgList)) ∧
    (∀ parts, (ops.PushParts s.c.wbuf parts).2 = none → s.c.nonBlocking = false →
      (ops.WriteTo (ops.PushParts s.c.wbuf parts).1 s.conn).2.2 = some e →
      DrainErrorOutcome s e (WriteParts ops s parts)) ∧
    (∀ t, step ops Action.drain s = some t →
      t.c.cherr = s.c.cherr ∧ t.log = s.log ∧ t.sendPc = SendPc.select ∧
      t.taskDrains = s.taskDrains + 1) := by
  refine ⟨fun data h hb hd => drain_error_outcome ops s (ops.Push s.c.wbuf data) e h hb hd,
    fun msgList h hb hd => drain_error_outcome ops s (ops.PushBatch s.c.wbuf msgList) e h hb hd,
    fun parts h hb hd => drain_error_outcome ops s (ops.PushParts s.c.wbuf parts) e h hb hd, ?_⟩
  intro t h
  simp only [step] at h
  split at h
  · simp only [Option.some.injEq] at h
    subst h
    simp
  · simp at h

/-- C5 as the code has it, at a blocking `Write` to a socket whose peer is gone. -/
theorem drain_error_is_not_offered_witness :
    (sampleOps.Push (newSys deadPeerSock ⟨4096, 4096, 0⟩).c.wbuf [1, 2, 3]).2 = none ∧
    DrainErrorOutcome (newSys deadPeerSock ⟨4096, 4096, 0⟩) 32
      (Write sampleOps (newSys deadPeerSock ⟨4096, 4096, 0⟩) [1, 2, 3]) :=
  ⟨by decide,
   (drain_error_is_not_offered sampleOps (newSys deadPeerSock ⟨4096, 4096, 0⟩) 32).1
     [1, 2, 3] (by decide) (by decide) (by decide)⟩

/-- C5 fails on the code.  The peer of the socket is gone, so every drain
returns error 32, and `cherr` is empty.  A blocking `Write` returns 32 and
`cherr` is still empty afterwards.  In non-blocking mode, after a `Write` and
a `Flush`, the goroutine `send` serves the request: its drain returns 32,
`cherr` is still empty, nothing is logged, and `send` is back at its `select`,
where neither the error case nor the shutdown case is ready. -/
theorem drain_error_is_recorded_counterexample :
    (newSys deadPeerSock ⟨4096, 4096, 0⟩).c.cherr.buf = [] ∧
    (Write sampleOps (newSys deadPeerSock ⟨4096, 4096, 0⟩) [1, 2, 3]).2 = some 32 ∧
    (Write sampleOps (newSys deadPeerSock ⟨4096, 4096, 0⟩) [1, 2, 3]).1.c.cherr.buf = [] ∧
    (run sampleOps [Action.setNonBlocking true, Action.write [1, 2, 3], Action.flush,
        Action.selectEvent] (newSys deadPeerSock ⟨4096, 4096, 0⟩)).map
      (fun t => ((sampleOps.WriteTo t.c.wbuf t.conn).2.2, t.sendPc)) =
      some (some 32, SendPc.drain) ∧
    (run sampleOps [Action.setNonBlocking true, Action.write [1, 2, 3], Action.flush,
        Action.selectEvent, Action.drain] (newSys deadPeerSock ⟨4096, 4096, 0⟩)).map
      (fun t => (t.c.cherr.buf, t.log, t.sendPc, t.taskDrains,
        (step sampleOps Action.selectErr t).isSome,
        (step sampleOps Action.selectExit t).isSome)) =
      some ([], [], SendPc.select, 1, false, false) := by
  decide

/-! ## Steps and the channels -/

theorem frame_facts {a : Action} {s t : Sys} (f : CallerFrame s t) : StepFacts a s t := by
  obtain ⟨f1, f2, f3, f4, f5, f6, f7, f8, f9, f10, f11, f12, f13, f14⟩ := f
  refine ⟨fun _ _ => f12, fun _ => f14, by omega, ?_, by rw [f11]; exact id, ?_⟩
  · intro _
    simp only [drainBudget, Chan.len, f5, f12, f1]
    exact Nat.le_refl _
  · intro _ ho _
    obtain ⟨o1, o2⟩ := ho
    exact ⟨by rw [f1, f9, f3]; exact o1, by rw [f1, f4]; exact o2⟩

theorem step_facts (ops : WBufOps) (a : Action) (s t : Sys) (h : step ops a s = some t) :
    StepFacts a s t := by
  cases a with
  | write d =>
      simp only [step, Option.some.injEq] at h
      subst h
      exact frame_facts (Write_frame ops s d)
  | writeBatch d =>
      simp only [step, Option.some.injEq] at h
      subst h
      exact frame_facts (WriteBatch_frame ops s d)
  | writeParts d =>
      simp only [step, Option.some.injEq] at h
      subst h
      exact frame_facts (WriteParts_frame ops s d)
  | selectExit =>
      simp only [step] at h
      split at h
      · rename_i hc
        simp only [Option.some.injEq] at h
        subst h
        refine ⟨?_, ?_, ?_, ?_, ?_, ?_⟩ <;> simp_all [drainBudget, Chan.len]
        intro ho
        obtain ⟨o1, o2⟩ := ho
        constructor <;> simp_all
      · simp at h
  | selectErr =>
      simp only [step] at h
      split at h
      · rename_i hc
        split at h
        · rename_i e ch hr
          simp only [Option.some.injEq] at h
          subst h
          refine ⟨?_, ?_, ?_, ?_, ?_, ?_⟩ <;> simp_all [drainBudget, Chan.len]
          intro ho
          obtain ⟨o1, o2⟩ := ho
          constructor <;> simp_all
        · simp at h
      · simp at h
  | selectEvent =>
      simp only [step] at h
      split at h
      · rename_i hc
        split at h
        · rename_i e ch hr
          simp only [Option.some.injEq] at h
          subst h
          obtain ⟨hb, hcap⟩ := tryRecv_some _ _ _ hr
          refine ⟨?_, ?_, ?_, ?_, ?_, ?_⟩ <;> simp_all [drainBudget, Chan.len]
          · omega
          · intro ho
            obtain ⟨o1, o2⟩ := ho
            constructor <;> simp_all
        · simp at h
      · simp at h
  | drain =>
      simp only [step] at h
      split at h
      · rename_i hc
        simp only [Option.some.injEq] at h
        subst h
        refine ⟨?_, ?_, ?_, ?_, ?_, ?_⟩ <;> simp_all [drainBudget, Chan.len]
        · omega
        · intro ho
          obtain ⟨o1, o2⟩ := ho
          constructor <;> simp_all
      · simp at h
  | deferRemove =>
      simp only [step] at h
      split at h
      · rename_i hc
        simp only [Option.some.injEq] at h
        subst h
        refine ⟨?_, ?_, ?_, ?_, ?_, ?_⟩ <;> simp_all [drainBudget, Chan.len]
        · split <;> simp
        · intro ho hr
          obtain ⟨o1, o2⟩ := ho
          have hm : s.manager.contains s.c.id = true := by
            simpa using o1 (Or.inr (Or.inr hc))
          constructor <;> simp_all [removeClient]
      · simp at h
  | deferClose =>
      simp only [step] at h
      split at h
      · rename_i hc
        simp only [Option.some.injEq] at h
        subst h
        refine ⟨?_, ?_, ?_, ?_, ?_, ?_⟩ <;> simp_all [drainBudget, Chan.len]
        intro ho
        obtain ⟨o1, o2⟩ := ho
        constructor <;> simp_all
      · simp at h
  | wgDone =>
      simp only [step] at h
      split at h
      · rename_i hc
        simp only [Option.some.injEq] at h
        subst h
        refine ⟨?_, ?_, ?_, ?_, ?_, ?_⟩ <;> simp_all [drainBudget, Chan.len]
        intro ho
        obtain ⟨o1, o2⟩ := ho
        constructor <;> simp_all
      · simp at h
  | closeChan =>
      simp only [step] at h
      split at h
      · rename_i hc
        split at h
        · simp only [Option.some.injEq] at h
          subst h
          exact ⟨fun _ _ => rfl, fun _ => Or.inl rfl, Nat.le_refl _, fun _ => Nat.le_refl _,
            id, fun _ ho _ => ⟨ho.1, ho.2⟩⟩
        · simp only [Option.some.injEq] at h
          subst h
          exact ⟨fun _ _ => rfl, fun _ => Or.inl rfl, Nat.le_refl _, fun _ => Nat.le_refl _,
            fun _ => rfl, fun _ ho _ => ⟨ho.1, ho.2⟩⟩
      · simp at h
  | closeConn =>
      simp only [step] at h
      split at h
      · simp only [Option.some.injEq] at h
        subst h
        exact ⟨fun _ _ => rfl, fun _ => Or.inl rfl, Nat.le_refl _, fun _ => Nat.le_refl _,
          id, fun _ ho _ => ⟨ho.1, ho.2⟩⟩
      · simp at h
  | closeWait =>
      simp only [step] at h
      split at h
      · simp only [Option.some.injEq] at h
        subst h
        exact ⟨fun _ _ => rfl, fun _ => Or.inl rfl, Nat.le_refl _, fun _ => Nat.le_refl _,
          id, fun _ ho _ => ⟨ho.1, ho.2⟩⟩
      · simp at h
  | flush =>
      simp only [step, Option.some.injEq] at h
      subst h
      refine ⟨fun _ hf => absurd rfl hf, ?_, Nat.le_refl _, fun hf => absurd rfl hf, ?_, ?_⟩
      · intro _
        left
        unfold Flush
        split <;> rfl
      · unfold Flush
        split <;> exact id
      · intro _ ho _
        obtain ⟨o1, o2⟩ := ho
        constructor <;> (unfold Flush; split) <;> assumption
  | notify e =>
      simp only [step, Option.some.injEq] at h
      subst h
      exact ⟨fun _ _ => rfl, fun _ => Or.inr ⟨e, rfl⟩, Nat.le_refl _, fun _ => Nat.le_refl _,
        id, fun _ ho _ => ⟨ho.1, ho.2⟩⟩
  | setNonBlocking b =>
      simp only [step, Option.some.injEq] at h
      subst h
      exact ⟨fun _ _ => rfl, fun _ => Or.inl rfl, Nat.le_refl _, fun _ => Nat.le_refl _,
        id, fun _ ho _ => ⟨ho.1, ho.2⟩⟩
  | managerRemove =>
      simp only [step, Option.some.injEq] at h
      subst h
      exact ⟨fun _ _ => rfl, fun _ => Or.inl rfl, Nat.le_refl _, fun _ => Nat.le_refl _,
        id, fun hm => absurd rfl hm⟩

/-! ## Executions -/

theorem run_cons (ops : WBufOps) (a : Action) (rest : List Action) (s t : Sys)
    (h : run ops (a :: rest) s = some t) :
    ∃ u, step ops a s = some u ∧ run ops rest u = some t := by
  simp only [run] at h
  cases hs : step ops a s with
  | none => rw [hs] at h; simp at h
  | some u =>
      rw [hs] at h
      exact ⟨u, rfl, by simpa using h⟩

theorem trySend_full {α : Type} (ch : Chan α) (v : α) (h : ch.cap ≤ ch.buf.length) :
    ch.trySend v = ch := by
  have : ¬ ch.buf.length < ch.cap := by omega
  simp [Chan.trySend, this]

theorem Flush_len {k : Nat} (s : Sys) (hi : Inv k s) : (Flush s.c).chevent.buf.length = 1 := by
  have h1 := hi.capEvent
  have h3 := hi.lenEvent
  unfold Flush
  split
  · rename_i hp
    simp only [Chan.len] at hp
    omega
  · rename_i hp
    simp only [Chan.len] at hp
    have h0 : s.c.chevent.buf.length = 0 := by omega
    simp [Chan.trySend, h0, h1]

theorem run_no_consume {k : Nat} (ops : WBufOps) :
    ∀ (acts : List Action) (s t : Sys), Inv k s → Action.selectEvent ∉ acts →
      run ops acts s = some t →
      s.c.chevent.buf.length ≤ t.c.chevent.buf.length ∧
      (Action.flush ∈ acts → t.c.chevent.buf.length = 1) := by
  intro acts
  induction acts with
  | nil =>
      intro s t _ _ h
      simp only [run, Option.some.injEq] at h
      subst h
      simp
  | cons a rest ih =>
      intro s t hi hn h
      obtain ⟨u, hs, hr⟩ := run_cons ops a rest s t h
      have hiu : Inv k u := step_inv ops a s u hs hi
      have hna : a ≠ Action.selectEvent := fun e => hn (by simp [e])
      have hnr : Action.selectEvent ∉ rest := fun e => hn (by simp [e])
      obtain ⟨ih1, ih2⟩ := ih u t hiu hnr hr
      have hit : Inv k t := run_inv ops rest u t hr hiu
      have hlt := hit.lenEvent
      by_cases hf : a = Action.flush
      · subst hf
        simp only [step, Option.some.injEq] at hs
        have hl := Flush_len s hi
        have hlu : u.c.chevent.buf.length = 1 := by rw [← hs]; exact hl
        have hls := hi.lenEvent
        constructor
        · omega
        · intro _; omega
      · have hc := (step_facts ops a s u hs).chevent hna hf
        constructor
        · rw [← hc]; exact ih1
        · intro hm
          simp only [List.mem_cons] at hm
          rcases hm with hm | hm
          · exact absurd hm.symm hf
          · exact ih2 hm

theorem run_no_err_consume (ops : WBufOps) :
    ∀ (acts : List Action) (s t : Sys), Action.selectErr ∉ acts →
      s.c.cherr.cap ≤ s.c.cherr.buf.length → run ops acts s = some t →
      t.c.cherr = s.c.cherr := by
  intro acts
  induction acts with
  | nil =>
      intro s t _ _ h
      simp only [run, Option.some.injEq] at h
      subst h
      rfl
  | cons a rest ih =>
      intro s t hn hfull h
      obtain ⟨u, hs, hr⟩ := run_cons ops a rest s t h
      have hna : a ≠ Action.selectErr := fun e => hn (by simp [e])
      have hnr : Action.selectErr ∉ rest := fun e => hn (by simp [e])
      have hu : u.c.cherr = s.c.cherr := by
        rcases (step_facts ops a s u hs).cherr hna with hc | ⟨e, hc⟩
        · exact hc
        · rw [hc]; exact trySend_full _ _ hfull
      rw [← hu]
      exact ih u t hnr (by rw [hu]; exact hfull) hr

theorem run_budget (ops : WBufOps) :
    ∀ (acts : List Action) (s t : Sys), Action.flush ∉ acts → run ops acts s = some t →
      drainBudget t ≤ drainBudget s ∧ s.taskDrains ≤ t.taskDrains ∧
      (s.c.chexit = true → t.c.chexit = true) := by
  intro acts
  induction acts with
  | nil =>
      intro s t _ h
      simp only [run, Option.some.injEq] at h
      subst h
      exact ⟨Nat.le_refl _, Nat.le_refl _, id⟩
  | cons a rest ih =>
      intro s t hn h
      obtain ⟨u, hs, hr⟩ := run_cons ops a rest s t h
      have hna : a ≠ Action.flush := fun e => hn (by simp [e])
      have hnr : Action.flush ∉ rest := fun e => hn (by simp [e])
      obtain ⟨i1, i2, i3⟩ := ih u t hnr hr
      have f := step_facts ops a s u hs
      have fb := f.budget hna
      have fd := f.drains
      exact ⟨by omega, by omega, fun hx => i3 (f.chexit hx)⟩

theorem run_owned {k : Nat} (ops : WBufOps) :
    ∀ (acts : List Action) (s t : Sys), Inv k s → Owned s → Action.managerRemove ∉ acts →
      run ops acts s = some t → Owned t := by
  intro acts
  induction acts with
  | nil =>
      intro s t _ ho _ h
      simp only [run, Option.some.injEq] at h
      subst h
      exact ho
  | cons a rest ih =>
      intro s t hi ho hn h
      obtain ⟨u, hs, hr⟩ := run_cons ops a rest s t h
      have hna : a ≠ Action.managerRemove := fun e => hn (by simp [e])
      have hnr : Action.managerRemove ∉ rest := fun e => hn (by simp [e])
      have hrem : s.removals = [] ∨ s.sendPc ≠ SendPc.exitHandler := by
        by_cases hp : s.sendPc = SendPc.exitHandler
        · exact Or.inl (hi.removalsBefore (Or.inr (Or.inr hp)))
        · exact Or.inr hp
      exact ih u t (step_inv ops a s u hs hi) ((step_facts ops a s u hs).owned hna ho hrem)
        hnr hr

/-! ## Flush requests and the first-error slot -/

theorem Flush_fixed (c : Connection) (h : 0 < c.chevent.len) : Flush c = c := by
  unfold Flush
  simp [h]

theorem Flush_iterate (c : Connection) (hcap : c.chevent.cap = 1) (hlen : c.chevent.len ≤ 1) :
    ∀ n, 1 ≤ n → (Nat.iterate Flush n c).chevent.len = 1 := by
  have h1 : (Flush c).chevent.len = 1 := by
    unfold Flush
    split
    · omega
    · rename_i hp
      simp only [Chan.len] at hp hlen ⊢
      have h0 : c.chevent.buf.length = 0 := by omega
      simp [Chan.trySend, h0, hcap]
  intro n hn
  obtain ⟨m, rfl⟩ : ∃ m, n = m + 1 := ⟨n - 1, by omega⟩
  rw [Function.iterate_succ_apply]
  rw [Function.iterate_fixed (Flush_fixed (Flush c) (by omega))]
  exact h1

/-- C7: in every reachable state `Flush()` never blocks (it is always enabled
and is a function of the state).  When a flush request is pending it leaves
the connection unchanged; otherwise it makes exactly one request pending and
changes nothing else.  After any actions that include at least one `Flush()`
and no consumption of `chevent` by `send`, exactly one request is pending; so
it is after `n >= 1` calls of `Flush()` in a row; and in every reachable state
at most one request is pending. -/
theorem Flush_coalesces (ops : WBufOps) (s : Sys) (h : Reachable ops s) :
    (step ops Action.flush s).isSome = true ∧
    (0 < s.c.chevent.len → Flush s.c = s.c) ∧
    (s.c.chevent.len = 0 →
      Flush s.c = { s.c with chevent := { buf := [()], cap := 1 } } ∧
      (Flush s.c).chevent.len = 1) ∧
    (∀ acts t, Action.flush ∈ acts → Action.selectEvent ∉ acts → run ops acts s = some t →
      t.c.chevent.len = 1) ∧
    (∀ n, 1 ≤ n → (Nat.iterate Flush n s.c).chevent.len = 1) ∧
    s.c.chevent.len ≤ 1 := by
  obtain ⟨k, hi⟩ := reachable_inv ops s h
  have hcap := hi.capEvent
  have hlen := hi.lenEvent
  refine ⟨rfl, Flush_fixed s.c, ?_, ?_, Flush_iterate s.c hcap hlen, hlen⟩
  · intro h0
    simp only [Chan.len] at h0
    have hb : s.c.chevent.buf = [] := List.length_eq_zero.mp h0
    have hc : s.c.chevent = { buf := [], cap := 1 } := by
      cases hch : s.c.chevent with
      | mk b c =>
          rw [hch] at hb hcap
          simp only at hb hcap
          rw [hb, hcap]
    simp [Flush, Chan.len, Chan.trySend, hc]
  · intro acts t hf hn hr
    exact (run_no_consume ops acts s t hi hn hr).2 hf

/-- C7 on the new connection of the end-to-end scenario: one `Flush()` makes a
request pending, and after three calls with a `Write` in between exactly one
is pending. -/
theorem Flush_coalesces_witness :
    (Flush (newSys openSock ⟨4096, 4096, 0⟩).c).chevent.len = 1 ∧
    (runOr sampleOps [Action.flush, Action.write [1], Action.flush, Action.flush]
        (newSys openSock ⟨4096, 4096, 0⟩)).c.chevent.len = 1 :=
  ⟨((Flush_coalesces sampleOps (newSys openSock ⟨4096, 4096, 0⟩)
      (newSys_reachable sampleOps openSock ⟨4096, 4096, 0⟩ (by decide) (by decide) [] _ rfl)).2.2.1
      (by decide)).2,
   (Flush_coalesces sampleOps (newSys openSock ⟨4096, 4096, 0⟩)
      (newSys_reachable sampleOps openSock ⟨4096, 4096, 0⟩ (by decide) (by decide) [] _ rfl)).2.2.2.1
      [Action.flush, Action.write [1], Action.flush, Action.flush] _
      (by decide) (by decide) (by decide)⟩

theorem notifyErr_full (c : Connection) (e : GoError) (h : c.cherr.cap ≤ c.cherr.buf.length) :
    notifyErr c e = c := by
  unfold notifyErr
  rw [trySend_full _ _ h]

theorem notifyErr_foldl_full (errs : List GoError) :
    ∀ c : Connection, c.cherr.cap ≤ c.cherr.buf.length → List.foldl notifyErr c errs = c := by
  induction errs with
  | nil => intro c _; rfl
  | cons e rest ih =>
      intro c h
      simp only [List.foldl_cons]
      rw [notifyErr_full c e h]
      exact ih c h

/-- C8: in every reachable state `cherr` holds at most one error and
`notifyErr` never blocks (it is always enabled and is a function of the
state).  A report to the empty slot stores the error; a report to an occupied
slot changes nothing.  After any sequence of reports to an empty slot the
slot holds the first of them, and an error in the slot stays there through
any actions that do not include the consumption of `cherr` by `send`. -/
theorem cherr_keeps_first_error (ops : WBufOps) (s : Sys) (h : Reachable ops s) :
    s.c.cherr.len ≤ 1 ∧
    (∀ e, (step ops (Action.notify e) s).isSome = true) ∧
    (∀ e, s.c.cherr.buf = [] → (notifyErr s.c e).cherr.buf = [e]) ∧
    (∀ e, s.c.cherr.buf ≠ [] → notifyErr s.c e = s.c) ∧
    (∀ e rest, s.c.cherr.buf = [] → (List.foldl notifyErr s.c (e :: rest)).cherr.buf = [e]) ∧
    (∀ e acts t, s.c.cherr.buf = [e] → Action.selectErr ∉ acts → run ops acts s = some t →
      t.c.cherr.buf = [e]) := by
  obtain ⟨k, hi⟩ := reachable_inv ops s h
  have hcap := hi.capErr
  have hlen := hi.lenErr
  have hstore : ∀ e, s.c.cherr.buf = [] → (notifyErr s.c e).cherr.buf = [e] := by
    intro e hb
    simp [notifyErr, Chan.trySend, hb, hcap]
  have hfull : ∀ e, s.c.cherr.buf ≠ [] → notifyErr s.c e = s.c := by
    intro e hb
    have : 0 < s.c.cherr.buf.length := List.length_pos.mpr hb
    exact notifyErr_full s.c e (by omega)
  refine ⟨hlen, fun _ => rfl, hstore, hfull, ?_, ?_⟩
  · intro e rest hb
    simp only [List.foldl_cons]
    have h1 := hstore e hb
    have hc : (notifyErr s.c e).cherr.cap = 1 := by
      simp only [notifyErr]
      rw [trySend_cap]
      exact hcap
    rw [notifyErr_foldl_full rest (notifyErr s.c e) (by rw [h1, hc]; simp)]
    exact h1
  · intro e acts t hb hn hr
    rw [run_no_err_consume ops acts s t hn (by rw [hb, hcap]; simp) hr]
    exact hb

/-- C8 on the new connection of the end-to-end scenario: of the reports 5, 6
and 7 the slot keeps 5. -/
theorem cherr_keeps_first_error_witness :
    Reachable sampleOps (newSys openSock ⟨4096, 4096, 0⟩) ∧
    (List.foldl notifyErr (newSys openSock ⟨4096, 4096, 0⟩).c [5, 6, 7]).cherr.buf = [5] :=
  ⟨newSys_reachable sampleOps openSock ⟨4096, 4096, 0⟩ (by decide) (by decide) [] _ rfl,
   (cherr_keeps_first_error sampleOps (newSys openSock ⟨4096, 4096, 0⟩)
      (newSys_reachable sampleOps openSock ⟨4096, 4096, 0⟩ (by decide) (by decide) [] _ rfl)).2.2.2.2.1
      5 [6, 7] (by decide)⟩

/-! ## Closing -/

theorem closeTrace_runs :
    run sampleOps closeTrace (newSys openSock ⟨4096, 4096, 0⟩) = some closedSys := by
  decide

theorem closedSys_reachable : Reachable sampleOps closedSys :=
  newSys_reachable sampleOps openSock ⟨4096, 4096, 0⟩ (by decide) (by decide) closeTrace _
    closeTrace_runs

theorem canReturn_step {ops : WBufOps} {a : Action} {s u : Sys} (h : step ops a s = some u)
    (hu : CanReturn ops u) : CanReturn ops s := by
  obtain ⟨acts, t, hr, ht⟩ := hu
  exact ⟨a :: acts, t, by simp [run, h, hr], ht⟩

theorem canReturn_exited {k : Nat} (ops : WBufOps) (s : Sys) (hi : Inv k s)
    (hc : s.closePc = ClosePc.atWait) (hp : s.sendPc = SendPc.exited) : CanReturn ops s := by
  have hw := hi.wg
  simp only [hp, if_true] at hw
  exact ⟨[Action.closeWait], { s with closePc := ClosePc.returned },
    by simp [run, step, hc, hw], rfl⟩

theorem canReturn_wgDone {k : Nat} (ops : WBufOps) (s : Sys) (hi : Inv k s)
    (hc : s.closePc = ClosePc.atWait) (hp : s.sendPc = SendPc.wgDone) : CanReturn ops s := by
  have hs : step ops Action.wgDone s =
      some { s with c := { s.c with wg := s.c.wg - 1 }, sendPc := SendPc.exited } := by
    simp [step, hp]
  exact canReturn_step hs (canReturn_exited ops _ (step_inv ops _ _ _ hs hi) hc rfl)

theorem canReturn_deferClose {k : Nat} (ops : WBufOps) (s : Sys) (hi : Inv k s)
    (hc : s.closePc = ClosePc.atWait) (hp : s.sendPc = SendPc.deferClose) :
    CanReturn ops s := by
  have hs : step ops Action.deferClose s =
      some { s with conn := s.conn.Close, sendPc := SendPc.wgDone } := by
    simp [step, hp]
  exact canReturn_step hs (canReturn_wgDone ops _ (step_inv ops _ _ _ hs hi) hc rfl)

theorem canReturn_exitHandler {k : Nat} (ops : WBufOps) (s : Sys) (hi : Inv k s)
    (hc : s.closePc = ClosePc.atWait) (hp : s.sendPc = SendPc.exitHandler) :
    CanReturn ops s := by
  have hs : step ops Action.deferRemove s =
      some { s with manager := (removeClient s.manager s.c.id).1
                    removals := s.removals ++ [(removeClient s.manager s.c.id).2]
                    sendPc := if (removeClient s.manager s.c.id).2 then SendPc.deferClose
                      else SendPc.wgDone } := by
    simp [step, hp]
  have hu := step_inv ops _ _ _ hs hi
  cases hr : (removeClient s.manager s.c.id).2 with
  | true => exact canReturn_step hs (canReturn_deferClose ops _ hu hc (by simp [hr]))
  | false => exact canReturn_step hs (canReturn_wgDone ops _ hu hc (by simp [hr]))

theorem canReturn_select {k : Nat} (ops : WBufOps) (s : Sys) (hi : Inv k s)
    (hc : s.closePc = ClosePc.atWait) (hp : s.sendPc = SendPc.select) : CanReturn ops s := by
  have hx : s.c.chexit = true := hi.exitFlag.mpr (by rw [hc]; decide)
  have hs : step ops Action.selectExit s = some { s with sendPc := SendPc.exitHandler } := by
    simp [step, hp, hx]
  exact canReturn_step hs (canReturn_exitHandler ops _ (step_inv ops _ _ _ hs hi) hc rfl)

theorem canReturn_atWait {k : Nat} (ops : WBufOps) (s : Sys) (hi : Inv k s)
    (hc : s.closePc = ClosePc.atWait) : CanReturn ops s := by
  cases hp : s.sendPc with
  | select => exact canReturn_select ops s hi hc hp
  | drain =>
      have hs : step ops Action.drain s =
          some { s with c := { s.c with wbuf := (ops.WriteTo s.c.wbuf s.conn).1 }
                        conn := { s.conn with
                          sent := s.conn.sent ++ (ops.WriteTo s.c.wbuf s.conn).2.1 }
                        taskDrains := s.taskDrains + 1
                        sendPc := SendPc.select } := by
        simp [step, hp]
      exact canReturn_step hs (canReturn_select ops _ (step_inv ops _ _ _ hs hi) hc rfl)
  | exitHandler => exact canReturn_exitHandler ops s hi hc hp
  | deferClose => exact canReturn_deferClose ops s hi hc hp
  | wgDone => exact canReturn_wgDone ops s hi hc hp
  | exited => exact canReturn_exited ops s hi hc hp

/-- Progress of `Close()`: from every reachable state some continuation of
the execution brings `Close()` to its return (the goroutine `send` takes the
shutdown case, runs its deferred function and calls `c.wg.Done()`). -/
theorem Close_can_return (ops : WBufOps) (s : Sys) (h : Reachable ops s) : CanReturn ops s := by
  obtain ⟨k, hi⟩ := reachable_inv ops s h
  have hconn : ∀ u : Sys, Inv k u → u.closePc = ClosePc.atConnClose → CanReturn ops u := by
    intro u hiu hc
    have hs : step ops Action.closeConn u =
        some { u with conn := u.conn.Close, closePc := ClosePc.atWait } := by
      simp [step, hc]
    exact canReturn_step hs (canReturn_atWait ops _ (step_inv ops _ _ _ hs hiu) rfl)
  cases hc : s.closePc with
  | idle =>
      have hx : s.c.chexit = false := by
        cases hxx : s.c.chexit with
        | false => rfl
        | true => exact absurd hc (hi.exitFlag.mp hxx)
      have hs : step ops Action.closeChan s =
          some { s with c := { s.c with chexit := true }, closePc := ClosePc.atConnClose } := by
        simp [step, hc, hx]
      exact canReturn_step hs (hconn _ (step_inv ops _ _ _ hs hi) rfl)
  | atConnClose => exact hconn s hi hc
  | atWait => exact canReturn_atWait ops s hi hc
  | returned => exact ⟨[], s, rfl, hc⟩
  | panicked => exact absurd hc hi.noPanic

/-- C3: in every execution with one call of `Close()`, when `Close()` has
returned the goroutine `send` has fully exited (it is past `c.wg.Done()`, the
wait group counter is zero) and the connection's identifier is not in the
registry. -/
theorem Close_returns_after_send_exited (ops : WBufOps) (s : Sys) (h : Reachable ops s)
    (hc : s.closePc = ClosePc.returned) :
    s.sendPc = SendPc.exited ∧ s.c.id ∉ s.manager ∧ s.c.wg = 0 ∧ s.removals.length = 1 := by
  obtain ⟨k, hi⟩ := reachable_inv ops s h
  have he := hi.joined hc
  refine ⟨he, hi.removed (Or.inr (Or.inr he)), ?_, hi.removalsAfter (Or.inr he)⟩
  have := hi.wg
  simpa [he] using this

/-- C3 at the execution `closeTrace` of the end-to-end scenario, in which
`Close()` does return. -/
theorem Close_returns_after_send_exited_witness :
    closedSys.closePc = ClosePc.returned ∧
    closedSys.sendPc = SendPc.exited ∧ closedSys.c.id ∉ closedSys.manager ∧
    closedSys.c.wg = 0 ∧ closedSys.removals.length = 1 :=
  ⟨rfl, Close_returns_after_send_exited sampleOps closedSys closedSys_reachable rfl⟩

/-- C4 fails on the code.  Connection 7 is registered and `Close()` is called
on it, with no error reported: `Close()` invokes the socket's close, then the
deferred function of `send` wins the registry removal (`ok` is true) and
invokes the socket's close again.  When `Close()` has returned the socket's
close has been invoked twice, and the path that made no registry removal,
`Close()`, did close the socket (one invocation after `closeConn`, before
`send` has moved). -/
theorem socket_closed_once_counterexample :
    (7 ∈ (newSys openSock ⟨4096, 4096, 0⟩).manager) ∧
    (run sampleOps [Action.closeChan, Action.closeConn]
        (newSys openSock ⟨4096, 4096, 0⟩)).map
      (fun t => (t.conn.closeCalls, t.removals, t.sendPc)) = some (1, [], SendPc.select) ∧
    (run sampleOps closeTrace (newSys openSock ⟨4096, 4096, 0⟩)).map
      (fun t => (t.closePc, t.sendPc, t.conn.closeCalls, t.removals, t.manager)) =
      some (ClosePc.returned, SendPc.exited, 2, [true], [3]) := by
  decide

theorem step_registry (ops : WBufOps) (a : Action) (s u : Sys) (h : step ops a s = some u) :
    u.c.id = s.c.id ∧
    u.manager = (match a with
      | Action.deferRemove => (removeClient s.manager s.c.id).1
      | Action.managerRemove => (removeClient s.manager s.c.id).1
      | _ => s.manager) := by
  cases a with
  | write d =>
      simp only [step, Option.some.injEq] at h
      subst h
      exact ⟨(Write_frame ops s d).id, (Write_frame ops s d).manager⟩
  | writeBatch d =>
      simp only [step, Option.some.injEq] at h
      subst h
      exact ⟨(WriteBatch_frame ops s d).id, (WriteBatch_frame ops s d).manager⟩
  | writeParts d =>
      simp only [step, Option.some.injEq] at h
      subst h
      exact ⟨(WriteParts_frame ops s d).id, (WriteParts_frame ops s d).manager⟩
  | selectExit =>
      simp only [step] at h
      split at h
      · simp only [Option.some.injEq] at h
        subst h
        exact ⟨rfl, by simp⟩
      · simp at h
  | drain =>
      simp only [step] at h
      split at h
      · simp only [Option.some.injEq] at h
        subst h
        exact ⟨rfl, by simp⟩
      · simp at h
  | deferClose =>
      simp only [step] at h
      split at h
      · simp only [Option.some.injEq] at h
        subst h
        exact ⟨rfl, by simp⟩
      · simp at h
  | wgDone =>
      simp only [step] at h
      split at h
      · simp only [Option.some.injEq] at h
        subst h
        exact ⟨rfl, by simp⟩
      · simp at h
  | closeConn =>
      simp only [step] at h
      split at h
      · simp only [Option.some.injEq] at h
        subst h
        exact ⟨rfl, by simp⟩
      · simp at h
  | closeWait =>
      simp only [step] at h
      split at h
      · simp only [Option.some.injEq] at h
        subst h
        exact ⟨rfl, by simp⟩
      · simp at h
  | selectErr =>
      simp only [step] at h
      split at h
      · split at h
        · simp only [Option.some.injEq] at h
          subst h
          exact ⟨rfl, by simp⟩
        · simp at h
      · simp at h
  | selectEvent =>
      simp only [step] at h
      split at h
      · split at h
        · simp only [Option.some.injEq] at h
          subst h
          exact ⟨rfl, by simp⟩
        · simp at h
      · simp at h
  | deferRemove =>
      simp only [step] at h
      split at h
      · simp only [Option.some.injEq] at h
        subst h
        exact ⟨rfl, rfl⟩
      · simp at h
  | closeChan =>
      simp only [step] at h
      split at h
      · split at h <;>
        · simp only [Option.some.injEq] at h
          subst h
          exact ⟨rfl, rfl⟩
      · simp at h
  | flush =>
      simp only [step, Option.some.injEq] at h
      subst h
      refine ⟨?_, rfl⟩
      simp only [Flush]
      split <;> rfl
  | notify e =>
      simp only [step, Option.some.injEq] at h
      subst h
      exact ⟨rfl, rfl⟩
  | setNonBlocking b =>
      simp only [step, Option.some.injEq] at h
      subst h
      exact ⟨rfl, rfl⟩
  | managerRemove =>
      simp only [step, Option.some.injEq] at h
      subst h
      exact ⟨rfl, rfl⟩

theorem removalWins_tally (ops : WBufOps) :
    ∀ (acts : List Action) (s t : Sys), run ops acts s = some t →
      removalWins ops acts s + (if s.c.id ∈ s.manager then 0 else 1) =
        (if t.c.id ∈ t.manager then 0 else 1) := by
  intro acts
  induction acts with
  | nil =>
      intro s t h
      simp only [run, Option.some.injEq] at h
      subst h
      simp [removalWins]
  | cons a rest ih =>
      intro s t h
      obtain ⟨u, hs, hr⟩ := run_cons ops a rest s t h
      have hih := ih u t hr
      obtain ⟨hid, hman⟩ := step_registry ops a s u hs
      have hrem : s.c.id ∉ (removeClient s.manager s.c.id).1 := removeClient_not_mem _ _
      have hcon : (removeClient s.manager s.c.id).2 = decide (s.c.id ∈ s.manager) := by
        simp [removeClient]
      simp only [removalWins, hs]
      rw [hid] at hih
      by_cases hmem : s.c.id ∈ s.manager
      · cases a <;> simp_all <;> omega
      · cases a <;> simp_all

/-- C4 as the code has it: for every execution from `newConnection`,
(a) the deferred function of `send` makes at most one registry removal, and
once `send` has exited it has made exactly one and the identifier is out of
the registry;
(b) the socket's close has been invoked once by `Close()` if `Close()` has got
past its `c.conn.Close()`, which it calls unconditionally and without any
registry removal, plus once by the deferred function if its removal reported
`ok` and it has got past its `c.conn.Close()`;
(c) at most one registry removal, by `send` or by another owner, reports
`ok`, and exactly one does once a registered connection has been torn down;
(d) when the removal of `send` reported `ok` the socket's close has been
invoked twice once `Close()` has returned, and once when `send` has exited
and `Close()` was not called; when it did not report `ok` the deferred
function has performed no socket close;
(e) when the connection was registered and no other owner removes it, the
removal of `send` reports `ok`. -/
theorem socket_closes_counted (ops : WBufOps) (id : Int) (manager : List Int) (conn : TCPConn)
    (param : BufferParam) (coder now : Nat) (s0 s : Sys) (acts : List Action)
    (h0 : (newConnection id manager conn param coder now).1 = Except.ok s0)
    (hr : run ops acts s0 = some s) :
    (s.removals.length ≤ 1 ∧
      (s.sendPc = SendPc.exited → s.removals.length = 1 ∧ s.c.id ∉ s.manager)) ∧
    (s.conn.closeCalls = conn.closeCalls
      + (if s.closePc = ClosePc.atWait ∨ s.closePc = ClosePc.returned then 1 else 0)
      + (if (s.sendPc = SendPc.wgDone ∨ s.sendPc = SendPc.exited) ∧ s.removals = [true]
          then 1 else 0)) ∧
    (removalWins ops acts s0 ≤ 1 ∧
      (id ∈ manager → s.sendPc = SendPc.exited → removalWins ops acts s0 = 1)) ∧
    ((s.removals = [true] → s.closePc = ClosePc.returned →
        s.conn.closeCalls = conn.closeCalls + 2) ∧
      (s.removals = [true] → s.sendPc = SendPc.exited → s.closePc = ClosePc.idle →
        s.conn.closeCalls = conn.closeCalls + 1) ∧
      (s.removals ≠ [true] →
        s.conn.closeCalls = conn.closeCalls
          + (if s.closePc = ClosePc.atWait ∨ s.closePc = ClosePc.returned then 1 else 0))) ∧
    (id ∈ manager → Action.managerRemove ∉ acts → s.sendPc = SendPc.exited →
      s.removals = [true]) := by
  have hi0 := newConnection_inv id manager conn param coder now s0 h0
  have hs0 : s0.c.id = id ∧ s0.manager = manager := by
    unfold newConnection at h0
    split at h0
    · simp at h0
    · simp only [Except.ok.injEq] at h0
      subst h0
      exact ⟨rfl, rfl⟩
  have hi := run_inv ops acts s0 s hr hi0
  have hlen : s.removals.length ≤ 1 := by
    have hb := hi.removalsBefore
    have hw := hi.removalsWon
    have ha := hi.removalsAfter
    cases hp : s.sendPc <;> simp_all
  have hc := hi.closes
  have htally := removalWins_tally ops acts s0 s hr
  rw [hs0.1, hs0.2] at htally
  refine ⟨⟨hlen, fun he => ⟨hi.removalsAfter (Or.inr he), hi.removed (Or.inr (Or.inr he))⟩⟩,
    hc, ⟨?_, ?_⟩, ⟨?_, ?_, ?_⟩, ?_⟩
  · by_cases hm : id ∈ manager <;> by_cases ht : s.c.id ∈ s.manager <;> simp_all
  · intro hm he
    have ht := hi.removed (Or.inr (Or.inr he))
    simp_all
  · intro hw hret
    have he := hi.joined hret
    simp only [he, hw, hret, or_true, and_self, if_true] at hc
    omega
  · intro hw he hidle
    simp only [he, hw, hidle, or_true, and_self, if_true] at hc
    simpa using hc
  · intro hw
    simp only [hw, and_false, if_false] at hc
    simpa using hc
  · intro hreg hno he
    have ho0 : Owned s0 := by
      constructor
      · intro _
        rw [hs0.1, hs0.2]
        exact hreg
      · intro hp
        have := hi0.removalsBefore
        unfold newConnection at h0
        split at h0
        · simp at h0
        · simp only [Except.ok.injEq] at h0
          subst h0
          simp at hp
    exact (run_owned ops acts s0 s hi0 ho0 hno hr).won (Or.inr (Or.inr he))

/-- C4 as the code has it, at two executions of the end-to-end scenario.  In
`closeTrace` the removal of `send` reports `ok`: one removal reports `ok` and
the socket's close is invoked twice.  In `lostTrace` another owner removes the
connection first: again one removal reports `ok`, the removal of `send`
does not, the deferred function skips its close and the socket's close is
invoked once, by `Close()`. -/
theorem socket_closes_counted_witness :
    (closedSys.conn.closeCalls = openSock.closeCalls + 2 ∧
      removalWins sampleOps closeTrace (newSys openSock ⟨4096, 4096, 0⟩) = 1) ∧
    ((runOr sampleOps lostTrace (newSys openSock ⟨4096, 4096, 0⟩)).removals = [false] ∧
      (runOr sampleOps lostTrace (newSys openSock ⟨4096, 4096, 0⟩)).closePc
        = ClosePc.returned ∧
      (runOr sampleOps lostTrace (newSys openSock ⟨4096, 4096, 0⟩)).conn.closeCalls
        = openSock.closeCalls + 1 ∧
      removalWins sampleOps lostTrace (newSys openSock ⟨4096, 4096, 0⟩) = 1) :=
  ⟨⟨(socket_closes_counted sampleOps 7 [3, 7] openSock ⟨4096, 4096, 0⟩ 0 0
      (newSys openSock ⟨4096, 4096, 0⟩) closedSys closeTrace
      (by rw [newSys_eq openSock ⟨4096, 4096, 0⟩ (by decide) (by decide)])
      closeTrace_runs).2.2.2.1.1 rfl rfl,
    (socket_closes_counted sampleOps 7 [3, 7] openSock ⟨4096, 4096, 0⟩ 0 0
      (newSys openSock ⟨4096, 4096, 0⟩) closedSys closeTrace
      (by rw [newSys_eq openSock ⟨4096, 4096, 0⟩ (by decide) (by decide)])
      closeTrace_runs).2.2.1.2 (by decide) rfl⟩,
   by decide, by decide,
   by
    have h := (socket_closes_counted sampleOps 7 [3, 7] openSock ⟨4096, 4096, 0⟩ 0 0
      (newSys openSock ⟨4096, 4096, 0⟩)
      (runOr sampleOps lostTrace (newSys openSock ⟨4096, 4096, 0⟩)) lostTrace
      (by rw [newSys_eq openSock ⟨4096, 4096, 0⟩ (by decide) (by decide)])
      (by decide)).2.2.2.1.2.2 (by decide)
    rw [h]
    decide,
   (socket_closes_counted sampleOps 7 [3, 7] openSock ⟨4096, 4096, 0⟩ 0 0
      (newSys openSock ⟨4096, 4096, 0⟩)
      (runOr sampleOps lostTrace (newSys openSock ⟨4096, 4096, 0⟩)) lostTrace
      (by rw [newSys_eq openSock ⟨4096, 4096, 0⟩ (by decide) (by decide)])
      (by decide)).2.2.1.2 (by decide) (by decide)⟩

/-! ## A rejected push -/

theorem tryRecv_single {α : Type} (ch : Chan α) (v : α) (h : ch.buf = [v]) :
    ch.tryRecv = some (v, { ch with buf := [] }) := by
  simp [Chan.tryRecv, h]

theorem teardown_of_offer (ops : WBufOps) (s s1 : Sys) (e : GoError) (f : CallerFrame s s1)
    (hb : s1.c.cherr.buf = [e]) (hpc : s.sendPc = SendPc.select)
    (hx : s.c.chexit = false) (hev : s.c.chevent.buf = []) (hreg : s.c.id ∈ s.manager) :
    ErrorTeardown ops s s1 e := by
  obtain ⟨f1, f2, f3, f4, f5, f6, f7, f8, f9, f10, f11, f12, f13, f14⟩ := f
  have hpc1 : s1.sendPc = SendPc.select := by rw [f1]; exact hpc
  have hx1 : s1.c.chexit = false := by rw [f11]; exact hx
  have hev1 : s1.c.chevent.buf = [] := by rw [f12]; exact hev
  have hmem : s1.manager.contains s1.c.id = true := by
    rw [f3, f9]
    simpa using hreg
  have hmem1 : s.c.id ∈ s1.manager := by rw [f3]; exact hreg
  have hrecv := tryRecv_single s1.c.cherr e hb
  refine ⟨hb, ?_, ?_, ?_⟩
  · simp [step, hx1]
  · simp [step, hpc1, Chan.tryRecv, hev1]
  · simp [run, step, hpc1, hrecv, removeClient, hmem, hmem1, TCPConn.Close, f2, f4, f6, f7, f9]

theorem rejected_teardown (ops : WBufOps) (s : Sys) (e : GoError) (r : Sys × Option GoError)
    (hr : RejectedOutcome s e r) (f : CallerFrame s r.1)
    (hpc : s.sendPc = SendPc.select) (hx : s.c.chexit = false) (hev : s.c.chevent.buf = [])
    (herr : s.c.cherr.buf = []) (hcap : s.c.cherr.cap = 1) (hreg : s.c.id ∈ s.manager) :
    r.2 = some e ∧ ErrorTeardown ops s r.1 e := by
  obtain ⟨r1, _, _, _, _, r6, _⟩ := hr
  exact ⟨r1, teardown_of_offer ops s r.1 e f (r6 herr (by omega)) hpc hx hev hreg⟩

/-- C6 as the code has it: on an open, registered connection (`send` at its
`select`, `chexit` open, no flush request pending, `cherr` empty), a `Write`,
`WriteBatch` or `WriteParts` whose push is rejected returns the error and also
stores it in `cherr`.  Then the only case of `send`'s `select` that is ready
is the error case: `send` receives the error, logs it and exits, its
deferred function removes the connection from the registry and closes the
socket, with no `Close()` call and no other error. -/
theorem push_error_tears_down (ops : WBufOps) (s : Sys) (e : GoError)
    (hpc : s.sendPc = SendPc.select) (hx : s.c.chexit = false) (hev : s.c.chevent.buf = [])
    (herr : s.c.cherr.buf = []) (hcap : s.c.cherr.cap = 1) (hreg : s.c.id ∈ s.manager) :
    (∀ data, (ops.Push s.c.wbuf data).2 = some e →
      (Write ops s data).2 = some e ∧ ErrorTeardown ops s (Write ops s data).1 e) ∧
    (∀ msgList, (ops.PushBatch s.c.wbuf msgList).2 = some e →
      (WriteBatch ops s msgList).2 = some e ∧
      ErrorTeardown ops s (WriteBatch ops s msgList).1 e) ∧
    (∀ parts, (ops.PushParts s.c.wbuf parts).2 = some e →
      (WriteParts ops s parts).2 = some e ∧
      ErrorTeardown ops s (WriteParts ops s parts).1 e) :=
  ⟨fun data h => rejected_teardown ops s e _
      (rejected_outcome ops s (ops.Push s.c.wbuf data) e h) (Write_frame ops s data)
      hpc hx hev herr hcap hreg,
   fun msgList h => rejected_teardown ops s e _
      (rejected_outcome ops s (ops.PushBatch s.c.wbuf msgList) e h)
      (WriteBatch_frame ops s msgList) hpc hx hev herr hcap hreg,
   fun parts h => rejected_teardown ops s e _
      (rejected_outcome ops s (ops.PushParts s.c.wbuf parts) e h)
      (WriteParts_frame ops s parts) hpc hx hev herr hcap hreg⟩

/-- C6 as the code has it, at a new connection with `SendMaxSize = 2` and a
payload of three bytes. -/
theorem push_error_tears_down_witness :
    (sampleOps.Push (newSys openSock ⟨4096, 4096, 2⟩).c.wbuf [1, 2, 3]).2 = some 1 ∧
    (Write sampleOps (newSys openSock ⟨4096, 4096, 2⟩) [1, 2, 3]).2 = some 1 ∧
    ErrorTeardown sampleOps (newSys openSock ⟨4096, 4096, 2⟩)
      (Write sampleOps (newSys openSock ⟨4096, 4096, 2⟩) [1, 2, 3]).1 1 :=
  ⟨by decide,
   (push_error_tears_down sampleOps (newSys openSock ⟨4096, 4096, 2⟩) 1
      rfl rfl rfl rfl rfl (by decide)).1 [1, 2, 3] (by decide)⟩

/-- C6 fails on the code.  Connection 7 is open and registered, with
`SendMaxSize = 2`; nobody calls `Close()` and no other error occurs.  A
`Write` of three bytes is rejected by the send buffer with error 1.  The
error is also stored in `cherr`; `send` receives it, logs it and exits;
connection 7 is removed from the registry and the socket is closed. -/
theorem push_error_only_returned_counterexample :
    (Write sampleOps (newSys openSock ⟨4096, 4096, 2⟩) [1, 2, 3]).2 = some 1 ∧
    (run sampleOps [Action.write [1, 2, 3]] (newSys openSock ⟨4096, 4096, 2⟩)).map
      (fun t => (t.c.cherr.buf, t.manager, t.conn.closed, t.sendPc)) =
      some ([1], [3, 7], false, SendPc.select) ∧
    (run sampleOps [Action.write [1, 2, 3], Action.selectErr, Action.deferRemove,
        Action.deferClose, Action.wgDone] (newSys openSock ⟨4096, 4096, 2⟩)).map
      (fun t => (t.sendPc, t.manager, t.conn.closed, t.conn.closeCalls)) =
      some (SendPc.exited, [3], true, 1) ∧
    (run sampleOps [Action.write [1, 2, 3], Action.selectErr, Action.deferRemove,
        Action.deferClose, Action.wgDone] (newSys openSock ⟨4096, 4096, 2⟩)).map
      (fun t => (t.log, t.closePc, t.c.chexit)) = some ([1], ClosePc.idle, false) := by
  decide

/-! ## Shutdown and pending flush requests -/

theorem step_past (ops : WBufOps) (a : Action) (s t : Sys) (h : step ops a s = some t)
    (h1 : s.sendPc ≠ SendPc.select) (h2 : s.sendPc ≠ SendPc.drain) :
    t.taskDrains = s.taskDrains ∧ t.sendPc ≠ SendPc.select ∧ t.sendPc ≠ SendPc.drain := by
  cases a with
  | write d =>
      simp only [step, Option.some.injEq] at h
      subst h
      have f := Write_frame ops s d
      exact ⟨f.taskDrains, by rw [f.sendPc]; exact h1, by rw [f.sendPc]; exact h2⟩
  | writeBatch d =>
      simp only [step, Option.some.injEq] at h
      subst h
      have f := WriteBatch_frame ops s d
      exact ⟨f.taskDrains, by rw [f.sendPc]; exact h1, by rw [f.sendPc]; exact h2⟩
  | writeParts d =>
      simp only [step, Option.some.injEq] at h
      subst h
      have f := WriteParts_frame ops s d
      exact ⟨f.taskDrains, by rw [f.sendPc]; exact h1, by rw [f.sendPc]; exact h2⟩
  | selectExit =>
      simp only [step] at h
      split at h
      · simp only [Option.some.injEq] at h
        subst h
        simp_all
      · simp at h
  | drain =>
      simp only [step] at h
      split at h
      · simp only [Option.some.injEq] at h
        subst h
        simp_all
      · simp at h
  | deferRemove =>
      simp only [step] at h
      split at h
      · simp only [Option.some.injEq] at h
        subst h
        simp_all
        split <;> simp
      · simp at h
  | deferClose =>
      simp only [step] at h
      split at h
      · simp only [Option.some.injEq] at h
        subst h
        simp_all
      · simp at h
  | wgDone =>
      simp only [step] at h
      split at h
      · simp only [Option.some.injEq] at h
        subst h
        simp_all
      · simp at h
  | closeConn =>
      simp only [step] at h
      split at h
      · simp only [Option.some.injEq] at h
        subst h
        simp_all
      · simp at h
  | closeWait =>
      simp only [step] at h
      split at h
      · simp only [Option.some.injEq] at h
        subst h
        simp_all
      · simp at h
  | selectErr =>
      simp only [step] at h
      split at h
      · rename_i hc
        exact absurd hc h1
      · simp at h
  | selectEvent =>
      simp only [step] at h
      split at h
      · rename_i hc
        exact absurd hc h1
      · simp at h
  | closeChan =>
      simp only [step] at h
      split at h
      · split at h <;>
        · simp only [Option.some.injEq] at h
          subst h
          exact ⟨rfl, h1, h2⟩
      · simp at h
  | flush =>
      simp only [step, Option.some.injEq] at h
      subst h
      exact ⟨rfl, h1, h2⟩
  | notify e =>
      simp only [step, Option.some.injEq] at h
      subst h
      exact ⟨rfl, h1, h2⟩
  | setNonBlocking b =>
      simp only [step, Option.some.injEq] at h
      subst h
      exact ⟨rfl, h1, h2⟩
  | managerRemove =>
      simp only [step, Option.some.injEq] at h
      subst h
      exact ⟨rfl, h1, h2⟩

theorem run_past (ops : WBufOps) :
    ∀ (acts : List Action) (s t : Sys), run ops acts s = some t →
      s.sendPc ≠ SendPc.select → s.sendPc ≠ SendPc.drain → t.taskDrains = s.taskDrains := by
  intro acts
  induction acts with
  | nil =>
      intro s t h _ _
      simp only [run, Option.some.injEq] at h
      subst h
      rfl
  | cons a rest ih =>
      intro s t h h1 h2
      obtain ⟨u, hs, hr⟩ := run_cons ops a rest s t h
      obtain ⟨p1, p2, p3⟩ := step_past ops a s u hs h1 h2
      rw [ih u t hr p2 p3, p1]

/-- C10 fails on the code.  A flush request is pending when `Close()` closes
`chexit`: both the shutdown case and the flush case of `send`'s `select` are
ready, and Go chooses one of the ready cases at random.  When it chooses the
flush case, `send` drains the send buffer after the shutdown signal has fired
(its drain count goes from 0 to 1) and exits only at a later iteration. -/
theorem no_drain_after_shutdown_counterexample :
    (run sampleOps [Action.flush, Action.closeChan] (newSys openSock ⟨4096, 4096, 0⟩)).map
      (fun t => (t.c.chexit, t.c.chevent.len, t.sendPc, t.taskDrains,
        (step sampleOps Action.selectEvent t).isSome)) =
      some (true, 1, SendPc.select, 0, true) ∧
    (run sampleOps [Action.flush, Action.closeChan, Action.selectEvent, Action.drain]
        (newSys openSock ⟨4096, 4096, 0⟩)).map
      (fun t => (t.c.chexit, t.sendPc, t.taskDrains)) = some (true, SendPc.select, 1) ∧
    (run sampleOps [Action.flush, Action.closeChan, Action.selectEvent, Action.drain,
        Action.selectExit, Action.deferRemove, Action.deferClose, Action.wgDone]
        (newSys openSock ⟨4096, 4096, 0⟩)).map
      (fun t => (t.sendPc, t.taskDrains)) = some (SendPc.exited, 1) := by
  decide

/-- C10 as the code has it: once `chexit` has fired it stays fired, and
(a) the shutdown case of `send`'s `select` is ready, taking it drains nothing,
and from then on `send` never drains again, whatever else happens;
(b) when no flush request is pending the flush case is not ready;
(c) when a request is pending the flush case is ready as well and may be
chosen: in any execution without a new `Flush()`, `send` drains at most once
per request that was pending (at most one) or being served when the signal
fired, and not at all when there was none. -/
theorem drains_after_shutdown_bounded (ops : WBufOps) (s : Sys) (h : Reachable ops s)
    (hx : s.c.chexit = true) :
    (s.sendPc = SendPc.select →
      ∃ u, step ops Action.selectExit s = some u ∧ u.taskDrains = s.taskDrains ∧
        ∀ acts t, run ops acts u = some t → t.taskDrains = s.taskDrains) ∧
    (s.c.chevent.buf = [] → step ops Action.selectEvent s = none) ∧
    (s.sendPc = SendPc.select → s.c.chevent.buf ≠ [] →
      (step ops Action.selectEvent s).isSome = true) ∧
    (∀ acts t, Action.flush ∉ acts → run ops acts s = some t →
      t.c.chexit = true ∧ s.taskDrains ≤ t.taskDrains ∧
      t.taskDrains ≤ s.taskDrains + s.c.chevent.len +
        (if s.sendPc = SendPc.drain then 1 else 0) ∧
      (s.sendPc ≠ SendPc.drain → t.taskDrains ≤ s.taskDrains + 1) ∧
      (s.sendPc ≠ SendPc.drain → s.c.chevent.buf = [] → t.taskDrains = s.taskDrains)) := by
  obtain ⟨k, hi⟩ := reachable_inv ops s h
  have hlen := hi.lenEvent
  refine ⟨?_, ?_, ?_, ?_⟩
  · intro hp
    refine ⟨{ s with sendPc := SendPc.exitHandler }, by simp [step, hp, hx], rfl, ?_⟩
    intro acts t hr
    exact run_past ops acts { s with sendPc := SendPc.exitHandler } t hr (by simp) (by simp)
  · intro hb
    simp [step, Chan.tryRecv, hb]
  · intro hp hb
    cases hbuf : s.c.chevent.buf with
    | nil => exact absurd hbuf hb
    | cons v rest => simp [step, hp, Chan.tryRecv, hbuf]
  · intro acts t hn hr
    obtain ⟨b1, b2, b3⟩ := run_budget ops acts s t hn hr
    have hb : t.taskDrains ≤ s.taskDrains + s.c.chevent.len +
        (if s.sendPc = SendPc.drain then 1 else 0) := by
      have : t.taskDrains ≤ drainBudget t := by
        simp only [drainBudget]
        omega
      simp only [drainBudget] at b1
      omega
    refine ⟨b3 hx, b2, hb, ?_, ?_⟩
    · intro hd
      simp only [hd, if_false, Chan.len] at hb
      omega
    · intro hd he
      simp only [hd, if_false, Chan.len, he, List.length_nil] at hb
      omega

/-- C10 as the code has it, in the state of the end-to-end scenario after
`Close()` has closed `chexit` with no flush request pending: `send` takes the
shutdown case and exits, and it has not drained. -/
theorem drains_after_shutdown_bounded_witness :
    shutSys.c.chexit = true ∧
    (runOr sampleOps [Action.selectExit, Action.deferRemove, Action.deferClose, Action.wgDone]
      shutSys).sendPc = SendPc.exited ∧
    (runOr sampleOps [Action.selectExit, Action.deferRemove, Action.deferClose, Action.wgDone]
      shutSys).taskDrains = shutSys.taskDrains :=
  ⟨rfl, by decide,
    ((drains_after_shutdown_bounded sampleOps shutSys
      (newSys_reachable sampleOps openSock ⟨4096, 4096, 0⟩ (by decide) (by decide)
        [Action.closeChan] _ (by decide))
      rfl).2.2.2
      [Action.selectExit, Action.deferRemove, Action.deferClose, Action.wgDone] _
      (by decide) (by decide)).2.2.2.2 (by decide) rfl⟩

end GxlbNet
